import Mathlib

/-!
Verification of the Station-Manager server core.

This file gives a shallow embedding, in Lean 4, of the parts of the
Station-Manager server that carry the specification's invariants:

* the in-memory TTL-bounded LRU logbook cache
  (`service/cache.go`: `inMemoryLogbookCache` with its map plus
  doubly-linked recency list),
* the request-authentication middlewares and key validation
  (`service/middleware.go`: `isValidApiKey`, `apikeyAuthNMiddleware`,
  `passwordAuthNMiddleware`, and the earlier `basicChecks` pipeline
  revision),
* the provisioning handler (`service/service.go`:
  `registerLogbookHandler`), and
* the cached logbook fetch (`service/cache.go`:
  `fetchLogbookWithCache`).

Go pointers to heap objects are embedded as natural-number node
identifiers resolved through an explicit heap; `nil` becomes `none`.
Wall-clock time (`time.Now()`) becomes an explicit integer
nanosecond parameter threaded through each operation.  Storage and
cryptographic primitives that live outside this repository's `server`
module (`database.Service` fetches, the `apikey` package) are modelled
as oracle functions in an environment record; where their behaviour is
dictated by the specification rather than by sources in this tree, the
definition's doc comment says so.
-/

set_option maxHeartbeats 1000000

namespace StationManager

/-- A logbook record (`types.Logbook`), restricted to the fields the
server core reads: internal id, callsign, name and owning user id. -/
structure Logbook where
  id : Int
  callsign : String
  name : String
  userId : Int
deriving Repr, DecidableEq, Inhabited

/-- A user record (`types.User`), restricted to the fields the
authentication path reads. -/
structure User where
  id : Int
  passHash : String
  emailConfirmed : Bool
deriving Repr, DecidableEq, Inhabited

/-! ## Association lists

The Go `map[int64]*logbookCacheEntry` and the heap of `lruNode`
objects are embedded as association lists.  Only the lookup function
is semantically visible to the translated code, so the layout chosen
by the insert/update operations below is a free choice of the
embedding. -/

/-- Lookup in an association list (the first binding wins). -/
def alookup {α β : Type} [DecidableEq α] : List (α × β) → α → Option β
  | [], _ => none
  | (k, v) :: rest, k' => if k' = k then some v else alookup rest k'

/-- Remove the first binding of a key from an association list. -/
def aerase {α β : Type} [DecidableEq α] : List (α × β) → α → List (α × β)
  | [], _ => []
  | (k, v) :: rest, k' => if k' = k then rest else (k, v) :: aerase rest k'

theorem alookup_eq_none_cons {α β : Type} [DecidableEq α] {k : α} {v : β} {rest : List (α × β)}
    {k' : α} (h : alookup ((k, v) :: rest) k' = none) :
    k' ≠ k ∧ alookup rest k' = none := by
  by_cases hk : k' = k <;> simp [alookup, hk] at h ⊢ <;> exact h

/-- An `lruNode` from `service/cache.go`: the recency-list node
carrying a cache key and the two neighbour pointers. -/
structure LruNode where
  key : Int
  prev : Option Nat
  next : Option Nat
deriving Repr, DecidableEq

/-- A `logbookCacheEntry` from `service/cache.go`: the cached value,
its expiry instant, and the `prev`/`next` node-pointer fields (the
source initialises both to the entry's own list node and subsequently
reads only `prev`). -/
structure LogbookCacheEntry where
  value : Logbook
  expiresAt : Int
  prevN : Option Nat
  nextN : Option Nat
deriving Repr, DecidableEq

/-- Lookup of a node in the heap of allocated `lruNode` objects. -/
def nlookup : List (Nat × LruNode) → Nat → Option LruNode :=
  alookup

/-- Mutation of one field set of an allocated `lruNode` (Go writes
through a node pointer). Keys not present are left untouched. -/
def nupdate : List (Nat × LruNode) → Nat → (LruNode → LruNode) → List (Nat × LruNode)
  | [], _, _ => []
  | (j, nd) :: rest, i, f => if j = i then (j, f nd) :: rest else (j, nd) :: nupdate rest i f

theorem nlookup_nupdate (ns : List (Nat × LruNode)) (i : Nat) (f : LruNode → LruNode) (j : Nat) :
    nlookup (nupdate ns i f) j = if j = i then (nlookup ns i).map f else nlookup ns j := by
  induction ns with
  | nil => simp [nlookup, nupdate, alookup]
  | cons hd tl ih =>
    obtain ⟨k, nd⟩ := hd
    by_cases hki : k = i
    · subst hki
      by_cases hji : j = k <;> simp [nupdate, nlookup, alookup, hji]
    · by_cases hjk : j = k
      · subst hjk
        simp [nupdate, nlookup, alookup, hki, Ne.symm hki]
      · simp only [nupdate, hki, if_false, nlookup, alookup, hjk]
        simp only [nlookup] at ih
        rw [ih]
        by_cases hji : j = i <;> simp [hji, alookup, hki, hjk, Ne.symm hki]

theorem nlookup_nupdate_self (ns : List (Nat × LruNode)) (i : Nat) (f : LruNode → LruNode) :
    nlookup (nupdate ns i f) i = (nlookup ns i).map f := by
  simp [nlookup_nupdate]

theorem nlookup_nupdate_other (ns : List (Nat × LruNode)) (i : Nat) (f : LruNode → LruNode)
    (j : Nat) (h : j ≠ i) : nlookup (nupdate ns i f) j = nlookup ns j := by
  simp [nlookup_nupdate, h]

/-- The `inMemoryLogbookCache` struct of `service/cache.go`.  The
`entries` map and the node heap are association lists; `head` and
`tail` are the recency-list boundary pointers; `nextNodeId` is the
allocator for fresh node identities (Go allocates with `&lruNode{...}`;
the embedding draws a fresh identifier instead). -/
structure InMemoryLogbookCache where
  entries : List (Int × LogbookCacheEntry)
  maxEntries : Nat
  head : Option Nat
  tail : Option Nat
  nodes : List (Nat × LruNode)
  nextNodeId : Nat
deriving Repr, DecidableEq

/-- The default TTL of `service/cache.go` (5 minutes), in nanoseconds. -/
def defaultLogbookCacheTTL : Int := 300000000000

/-- The default capacity of `service/cache.go`. -/
def defaultLogbookCacheMaxEntries : Nat := 1024

/-- The constructor `newInMemoryLogbookCache`, generalised over the
capacity field exactly as the source's struct literals are (the
benchmarks in the repository build the struct directly with capacities
100, 1000 and 1024). -/
def mkLogbookCache (maxEntries : Nat) : InMemoryLogbookCache :=
  { entries := [], maxEntries := maxEntries, head := none, tail := none
    nodes := [], nextNodeId := 0 }

/-- The constructor `newInMemoryLogbookCache` from `service/cache.go`
with its default capacity. -/
def newInMemoryLogbookCache : InMemoryLogbookCache :=
  mkLogbookCache defaultLogbookCacheMaxEntries

namespace InMemoryLogbookCache

/-- The body of `removeNodeLocked` from `service/cache.go`: unlink a
node from the doubly-linked recency list, updating neighbour pointers
or the `head`/`tail` boundary fields.  The second neighbour write
re-reads the node, exactly as the source's second `if` re-reads
`node.next` after the first assignment. -/
def removeNodeLocked (c : InMemoryLogbookCache) (nid : Nat) : InMemoryLogbookCache :=
  match nlookup c.nodes nid with
  | none => c
  | some nd0 =>
    let c1 :=
      match nd0.prev with
      | some p => { c with nodes := nupdate c.nodes p (fun x => { x with next := nd0.next }) }
      | none => { c with head := nd0.next }
    match nlookup c1.nodes nid with
    | none => c1
    | some nd1 =>
      match nd1.next with
      | some q => { c1 with nodes := nupdate c1.nodes q (fun x => { x with prev := nd1.prev }) }
      | none => { c1 with tail := nd1.prev }

/-- The body of `addToFrontLocked` from `service/cache.go`: push a node
to the most-recently-used position. -/
def addToFrontLocked (c : InMemoryLogbookCache) (nid : Nat) : InMemoryLogbookCache :=
  let oldHead := c.head
  let c1 := { c with nodes := nupdate c.nodes nid (fun x => { x with next := oldHead, prev := none }) }
  let c2 :=
    match oldHead with
    | some h => { c1 with nodes := nupdate c1.nodes h (fun x => { x with prev := some nid }) }
    | none => c1
  let c3 := { c2 with head := some nid }
  if c3.tail = none then { c3 with tail := some nid } else c3

/-- The body of `moveToFrontLocked` from `service/cache.go`: promote an
entry's node unless it is absent or already the head. -/
def moveToFrontLocked (c : InMemoryLogbookCache) (e : LogbookCacheEntry) : InMemoryLogbookCache :=
  match e.prevN with
  | none => c
  | some nid =>
    if some nid = c.head then c
    else addToFrontLocked (removeNodeLocked c nid) nid

/-- The body of `removeLocked` from `service/cache.go`: drop an entry
from the map and unlink its node. -/
def removeLocked (c : InMemoryLogbookCache) (id : Int) : InMemoryLogbookCache :=
  match alookup c.entries id with
  | none => c
  | some e =>
    let c1 :=
      match e.prevN with
      | some nid => removeNodeLocked c nid
      | none => c
    { c1 with entries := aerase c1.entries id }

/-- The method `Get` from `service/cache.go` on a non-nil receiver.
`now` is the value `time.Now()` reads during the call. -/
def Get (c : InMemoryLogbookCache) (id : Int) (now : Int) :
    Option Logbook × InMemoryLogbookCache :=
  match alookup c.entries id with
  | none => (none, c)
  | some e =>
    if e.expiresAt < now then (none, removeLocked c id)
    else (some e.value, moveToFrontLocked c e)

/-- The method `Set` from `service/cache.go` on a non-nil receiver.
A non-positive `ttl` is coerced to the default TTL, as in the source. -/
def Set (c : InMemoryLogbookCache) (id : Int) (lb : Logbook) (ttl : Int) (now : Int) :
    InMemoryLogbookCache :=
  let ttl' := if ttl ≤ 0 then defaultLogbookCacheTTL else ttl
  match alookup c.entries id with
  | some e =>
    let e' := { e with value := lb, expiresAt := now + ttl' }
    let c1 := { c with entries := (id, e') :: aerase c.entries id }
    moveToFrontLocked c1 e'
  | none =>
    let c1 :=
      if 0 < c.maxEntries ∧ c.maxEntries ≤ c.entries.length then
        match c.tail with
        | some t =>
          match nlookup c.nodes t with
          | some nd => removeLocked c nd.key
          | none => c
        | none => c
      else c
    let nid := c1.nextNodeId
    let c2 := { c1 with
      nodes := (nid, { key := id, prev := none, next := none }) :: c1.nodes
      nextNodeId := nid + 1 }
    let e : LogbookCacheEntry :=
      { value := lb, expiresAt := now + ttl', prevN := some nid, nextN := some nid }
    let c3 := { c2 with entries := (id, e) :: c2.entries }
    addToFrontLocked c3 nid

/-- The method `Invalidate` from `service/cache.go` on a non-nil
receiver. -/
def Invalidate (c : InMemoryLogbookCache) (id : Int) : InMemoryLogbookCache :=
  removeLocked c id

end InMemoryLogbookCache

/-- One cache operation of the interface `logbookCache`, with the
wall-clock instant at which it executes. -/
inductive CacheOp where
  | get (id : Int) (now : Int)
  | set (id : Int) (lb : Logbook) (ttl : Int) (now : Int)
  | invalidate (id : Int)
deriving Repr, DecidableEq

/-- State effect of one cache operation. -/
def applyCacheOp (c : InMemoryLogbookCache) : CacheOp → InMemoryLogbookCache
  | .get id now => (c.Get id now).2
  | .set id lb ttl now => c.Set id lb ttl now
  | .invalidate id => c.Invalidate id

/-- Sequential execution of a list of cache operations. -/
def runCacheOps (c : InMemoryLogbookCache) : List CacheOp → InMemoryLogbookCache
  | [] => c
  | op :: rest => runCacheOps (applyCacheOp c op) rest

/-! ## Abstract representation of the recency list

A reachable cache state is described by two lists of `RepEntry`:
`mrep` fixes the association-list layout of the `entries` map, and
`rep` is the recency order (most recently used first).  The two are
permutations of each other. -/

/-- One resident cache entry in the abstract view: its map key, the
identity of its recency-list node, and the cached data. -/
structure RepEntry where
  key : Int
  nid : Nat
  value : Logbook
  expiresAt : Int
deriving Repr, DecidableEq

/-- The concrete map entry corresponding to an abstract entry: the
source stores the entry with both node-pointer fields aimed at the
entry's own list node. -/
def entryOfRep (r : RepEntry) : LogbookCacheEntry :=
  { value := r.value, expiresAt := r.expiresAt, prevN := some r.nid, nextN := some r.nid }

/-- The concrete `entries` association list determined by a map layout. -/
def entriesImage (l : List RepEntry) : List (Int × LogbookCacheEntry) :=
  l.map fun r => (r.key, entryOfRep r)

/-- First abstract entry with a given key. -/
def repFind : List RepEntry → Int → Option RepEntry
  | [], _ => none
  | r :: rest, k => if k = r.key then some r else repFind rest k

/-- Remove the first abstract entry with a given key. -/
def repErase : List RepEntry → Int → List RepEntry
  | [], _ => []
  | r :: rest, k => if k = r.key then rest else r :: repErase rest k

/-- Node id of the first element of a recency list, or a fallback. -/
def nextPtr (l : List RepEntry) (q : Option Nat) : Option Nat :=
  match l with
  | [] => q
  | r :: _ => some r.nid

/-- Node id of the last element of a recency list, or a fallback. -/
def lastPtr (p : Option Nat) : List RepEntry → Option Nat
  | [] => p
  | r :: rest => lastPtr (some r.nid) rest

/-- The doubly-linked-list well-formedness check: walking the abstract
recency list, every node is allocated in the heap, carries its entry's
key, and its `prev`/`next` pointers are the neighbouring node ids
(`p` before the first element, `q` after the last). -/
def chainB (ns : List (Nat × LruNode)) : Option Nat → List RepEntry → Option Nat → Bool
  | _, [], _ => true
  | p, r :: rest, q =>
    decide (nlookup ns r.nid = some { key := r.key, prev := p, next := nextPtr rest q })
      && chainB ns (some r.nid) rest q

/-- Structural consistency of a cache state, relative to a map layout
`mrep` and a recency order `rep`: the entries map is exactly the image
of `mrep`; `mrep` and `rep` hold the same entries; keys and node ids
are unambiguous; every node id is below the allocator; and the
`head`/`tail` pointers plus the node heap form a well-linked
doubly-linked list spelling out `rep`. -/
def CacheInv (c : InMemoryLogbookCache) (mrep rep : List RepEntry) : Prop :=
  c.entries = entriesImage mrep ∧
  (mrep : Multiset RepEntry) = (rep : Multiset RepEntry) ∧
  (rep.map RepEntry.key).Nodup ∧
  (rep.map RepEntry.nid).Nodup ∧
  (∀ r ∈ rep, r.nid < c.nextNodeId) ∧
  c.head = nextPtr rep none ∧
  c.tail = lastPtr none rep ∧
  chainB c.nodes none rep none = true

theorem CacheInv.perm {c : InMemoryLogbookCache} {mrep rep : List RepEntry}
    (h : CacheInv c mrep rep) : mrep.Perm rep :=
  Multiset.coe_eq_coe.mp h.2.1

instance CacheInv.decidable (c : InMemoryLogbookCache) (mrep rep : List RepEntry) :
    Decidable (CacheInv c mrep rep) := by
  unfold CacheInv
  infer_instance

/-! ### Basic lemmas about the abstract representation -/

theorem alookup_entriesImage (l : List RepEntry) (k : Int) :
    alookup (entriesImage l) k = (repFind l k).map entryOfRep := by
  induction l with
  | nil => rfl
  | cons r rest ih =>
    by_cases hk : k = r.key <;> simp [entriesImage, alookup, repFind, hk] at ih ⊢ <;>
      simpa [entriesImage] using ih

theorem aerase_entriesImage (l : List RepEntry) (k : Int) :
    aerase (entriesImage l) k = entriesImage (repErase l k) := by
  induction l with
  | nil => rfl
  | cons r rest ih =>
    by_cases hk : k = r.key <;> simp [entriesImage, aerase, repErase, hk] at ih ⊢ <;>
      simpa [entriesImage] using ih

theorem length_entriesImage (l : List RepEntry) :
    (entriesImage l).length = l.length := by
  simp [entriesImage]

theorem repFind_mem {l : List RepEntry} {k : Int} {r : RepEntry}
    (h : repFind l k = some r) : r ∈ l ∧ r.key = k := by
  induction l with
  | nil => simp [repFind] at h
  | cons s rest ih =>
    by_cases hk : k = s.key
    · simp [repFind, hk] at h
      subst h
      exact ⟨List.mem_cons_self _ _, hk.symm⟩
    · simp [repFind, hk] at h
      obtain ⟨hm, hkk⟩ := ih h
      exact ⟨List.mem_cons_of_mem _ hm, hkk⟩

theorem repFind_of_mem {l : List RepEntry} (hnd : (l.map RepEntry.key).Nodup)
    {r : RepEntry} (hm : r ∈ l) : repFind l r.key = some r := by
  induction l with
  | nil => simp at hm
  | cons s rest ih =>
    rcases List.mem_cons.mp hm with h | h
    · subst h
      simp [repFind]
    · have hne : r.key ≠ s.key := by
        intro he
        have : r.key ∈ rest.map RepEntry.key := List.mem_map_of_mem _ h
        rw [he] at this
        exact (List.nodup_cons.mp hnd).1 this
      simp [repFind, hne]
      exact ih (List.nodup_cons.mp hnd).2 h

theorem repFind_none_iff {l : List RepEntry} {k : Int} :
    repFind l k = none ↔ k ∉ l.map RepEntry.key := by
  induction l with
  | nil => simp [repFind]
  | cons s rest ih =>
    by_cases hk : k = s.key <;> simp [repFind, hk, ih]

/-- Split a list at the first entry carrying a key. -/
theorem repFind_split {l : List RepEntry} {k : Int} {r : RepEntry}
    (h : repFind l k = some r) :
    ∃ pre post, l = pre ++ r :: post ∧ k ∉ pre.map RepEntry.key := by
  induction l with
  | nil => simp [repFind] at h
  | cons s rest ih =>
    by_cases hk : k = s.key
    · simp [repFind, hk] at h
      exact ⟨[], rest, by simp [h], by simp⟩
    · simp [repFind, hk] at h
      obtain ⟨pre, post, heq, hnotin⟩ := ih h
      exact ⟨s :: pre, post, by simp [heq], by simp [hnotin, Ne.symm, hk]⟩

theorem repErase_append_middle {pre post : List RepEntry} {r : RepEntry} {k : Int}
    (hr : r.key = k) (hpre : k ∉ pre.map RepEntry.key) :
    repErase (pre ++ r :: post) k = pre ++ post := by
  induction pre with
  | nil => simp [repErase, hr]
  | cons s rest ih =>
    have hks : k ≠ s.key := by
      intro he
      exact hpre (by simp [he])
    simp [repErase, hks]
    exact ih (by intro hmem; exact hpre (by simp [hmem]))

theorem repErase_perm {k : Int} {l l' : List RepEntry} (hp : l.Perm l') :
    (l.map RepEntry.key).Nodup → (repErase l k).Perm (repErase l' k) := by
  induction hp with
  | nil =>
    intro _
    simp [repErase]
  | cons x h ih =>
    intro hnd
    by_cases hk : k = x.key
    · simpa [repErase, hk] using h
    · simp only [repErase, hk, if_false]
      exact (ih (List.nodup_cons.mp (by simpa using hnd)).2).cons x
  | swap x y l =>
    intro hnd
    by_cases hky : k = y.key <;> by_cases hkx : k = x.key
    · exfalso
      simp only [List.map_cons, List.nodup_cons, List.mem_cons] at hnd
      exact hnd.1 (Or.inl (hkx ▸ hky ▸ rfl))
    · have hyx : y.key ≠ x.key := fun h => hkx (hky.trans h)
      simp [repErase, hky, hkx, hyx]
    · have hxy : x.key ≠ y.key := fun h => hky (hkx.trans h)
      simp [repErase, hky, hkx, hxy]
    · simp only [repErase, hky, hkx, if_false]
      exact List.Perm.swap x y (repErase l k)
  | trans h₁ h₂ ih₁ ih₂ =>
    intro hnd
    exact (ih₁ hnd).trans (ih₂ (((h₁.map RepEntry.key).nodup_iff).mp hnd))

/-! ### Pointer and chain lemmas -/

theorem nextPtr_append (xs ys : List RepEntry) (q : Option Nat) :
    nextPtr (xs ++ ys) q = nextPtr xs (nextPtr ys q) := by
  cases xs <;> rfl

theorem nextPtr_ne_nil (xs : List RepEntry) (hne : xs ≠ []) (q q' : Option Nat) :
    nextPtr xs q = nextPtr xs q' := by
  cases xs with
  | nil => exact absurd rfl hne
  | cons r rest => rfl

theorem lastPtr_append (p : Option Nat) (xs ys : List RepEntry) :
    lastPtr p (xs ++ ys) = lastPtr (lastPtr p xs) ys := by
  induction xs generalizing p with
  | nil => rfl
  | cons r rest ih => simpa [lastPtr] using ih (some r.nid)

theorem lastPtr_ne_nil (xs : List RepEntry) (hne : xs ≠ []) (p p' : Option Nat) :
    lastPtr p xs = lastPtr p' xs := by
  cases xs with
  | nil => exact absurd rfl hne
  | cons r rest => rfl

theorem lastPtr_concat (p : Option Nat) (init : List RepEntry) (r : RepEntry) :
    lastPtr p (init ++ [r]) = some r.nid := by
  rw [lastPtr_append]
  rfl

theorem chainB_congr {ns ns' : List (Nat × LruNode)} {l : List RepEntry}
    (h : ∀ r ∈ l, nlookup ns' r.nid = nlookup ns r.nid) (p q : Option Nat) :
    chainB ns' p l q = chainB ns p l q := by
  induction l generalizing p with
  | nil => rfl
  | cons r rest ih =>
    simp only [chainB]
    rw [h r (List.mem_cons_self _ _), ih (fun s hs => h s (List.mem_cons_of_mem _ hs))]

theorem chainB_append (ns : List (Nat × LruNode)) (p q : Option Nat)
    (xs ys : List RepEntry) :
    chainB ns p (xs ++ ys) q =
      (chainB ns p xs (nextPtr ys q) && chainB ns (lastPtr p xs) ys q) := by
  induction xs generalizing p with
  | nil => simp [chainB, lastPtr]
  | cons r rest ih =>
    simp only [List.cons_append, chainB, lastPtr, List.append_eq, ih (some r.nid),
      nextPtr_append, Bool.and_assoc]

theorem chainB_retarget_next {ns : List (Nat × LruNode)} {init : List RepEntry}
    {r : RepEntry} {p q : Option Nat} (q' : Option Nat)
    (hnotin : r.nid ∉ init.map RepEntry.nid)
    (h : chainB ns p (init ++ [r]) q = true) :
    chainB (nupdate ns r.nid (fun x => { x with next := q' })) p (init ++ [r]) q' = true := by
  induction init generalizing p with
  | nil =>
    simp only [List.nil_append, chainB, nextPtr, Bool.and_eq_true, decide_eq_true_eq] at h ⊢
    refine ⟨?_, h.2⟩
    rw [nlookup_nupdate_self, h.1]
    rfl
  | cons s rest ih =>
    have hsr : s.nid ≠ r.nid := by
      intro he
      exact hnotin (by simp [he.symm])
    simp only [List.cons_append, chainB, List.append_eq, Bool.and_eq_true,
      decide_eq_true_eq] at h ⊢
    refine ⟨?_, ih (by intro hm; exact hnotin (by simp [hm])) h.2⟩
    rw [nlookup_nupdate_other _ _ _ _ hsr, h.1,
      nextPtr_ne_nil (rest ++ [r]) (by simp) q q']

theorem chainB_retarget_prev {ns : List (Nat × LruNode)} {rest : List RepEntry}
    {r : RepEntry} {p q : Option Nat} (p' : Option Nat)
    (hnotin : r.nid ∉ rest.map RepEntry.nid)
    (h : chainB ns p (r :: rest) q = true) :
    chainB (nupdate ns r.nid (fun x => { x with prev := p' })) p' (r :: rest) q = true := by
  simp only [chainB, Bool.and_eq_true, decide_eq_true_eq] at h ⊢
  refine ⟨?_, ?_⟩
  · rw [nlookup_nupdate_self, h.1]
    rfl
  · rw [chainB_congr (fun s hs => nlookup_nupdate_other _ _ _ _ ?_) _ _]
    · exact h.2
    · intro he
      exact hnotin (he ▸ List.mem_map_of_mem _ hs)

/-! ### Effect of the list-surgery primitives on represented states -/

theorem removeNodeLocked_spec (c : InMemoryLogbookCache) (pre post : List RepEntry)
    (r : RepEntry)
    (hnd : ((pre ++ r :: post).map RepEntry.nid).Nodup)
    (hhead : c.head = nextPtr (pre ++ r :: post) none)
    (htail : c.tail = lastPtr none (pre ++ r :: post))
    (hch : chainB c.nodes none (pre ++ r :: post) none = true) :
    (c.removeNodeLocked r.nid).entries = c.entries ∧
    (c.removeNodeLocked r.nid).maxEntries = c.maxEntries ∧
    (c.removeNodeLocked r.nid).nextNodeId = c.nextNodeId ∧
    (c.removeNodeLocked r.nid).head = nextPtr (pre ++ post) none ∧
    (c.removeNodeLocked r.nid).tail = lastPtr none (pre ++ post) ∧
    chainB (c.removeNodeLocked r.nid).nodes none (pre ++ post) none = true ∧
    nlookup (c.removeNodeLocked r.nid).nodes r.nid = nlookup c.nodes r.nid := by
  rw [chainB_append] at hch
  simp only [Bool.and_eq_true] at hch
  obtain ⟨hpre, hmid⟩ := hch
  have hrnid : nextPtr (r :: post) none = some r.nid := rfl
  rw [hrnid] at hpre
  simp only [chainB, Bool.and_eq_true, decide_eq_true_eq] at hmid
  obtain ⟨hr, hpost⟩ := hmid
  simp only [List.map_append, List.map_cons, List.nodup_append, List.nodup_cons,
    List.mem_cons, List.disjoint_cons_right] at hnd
  obtain ⟨hndpre, ⟨hrpost, hndpost⟩, hrpre, hdisj⟩ := hnd
  rcases List.eq_nil_or_concat pre with hpre0 | ⟨init, lp, hpre0⟩
  · subst hpre0
    simp only [lastPtr] at hr
    cases post with
    | nil =>
      simp only [nextPtr] at hr
      simp only [InMemoryLogbookCache.removeNodeLocked, hr]
      simp [nextPtr, lastPtr, chainB]
    | cons s post' =>
      have hsr : s.nid ≠ r.nid := by
        intro he
        exact hrpost (by simp [← he])
      have hsnotin : s.nid ∉ post'.map RepEntry.nid := by
        have h2 := hndpost
        simp only [List.map_cons, List.nodup_cons] at h2
        exact h2.1
      simp only [nextPtr] at hr
      simp only [InMemoryLogbookCache.removeNodeLocked, hr]
      refine ⟨trivial, trivial, trivial, rfl, ?_, ?_, ?_⟩
      · simp [htail, lastPtr]
      · exact chainB_retarget_prev none hsnotin hpost
      · rw [nlookup_nupdate_other _ _ _ _ (Ne.symm hsr)]
        exact hr
  · rw [List.concat_eq_append] at hpre0
    subst hpre0
    have hlpr : lp.nid ≠ r.nid := by
      intro he
      exact hrpre (by simp [he])
    have hlast : lastPtr none (init ++ [lp]) = some lp.nid := lastPtr_concat _ _ _
    rw [hlast] at hr
    cases post with
    | nil =>
      have hlpinit : lp.nid ∉ init.map RepEntry.nid := by
        have h2 := hndpre
        simp only [List.map_append, List.map_cons, List.map_nil] at h2
        rw [List.nodup_append] at h2
        intro hm
        exact h2.2.2 hm (by simp)
      simp only [nextPtr] at hr
      simp only [InMemoryLogbookCache.removeNodeLocked, hr]
      have hr1 : nlookup (nupdate c.nodes lp.nid fun x => { x with next := none }) r.nid
          = some { key := r.key, prev := some lp.nid, next := none } := by
        rw [nlookup_nupdate_other _ _ _ _ (Ne.symm hlpr)]
        exact hr
      simp only [hr1]
      refine ⟨trivial, trivial, trivial, ?_, ?_, ?_, trivial⟩
      · rw [hhead, List.append_nil, nextPtr_append]
        exact nextPtr_ne_nil (init ++ [lp]) (by simp) _ _
      · rw [List.append_nil]
        exact hlast.symm
      · rw [List.append_nil]
        exact chainB_retarget_next none hlpinit hpre
    | cons s post' =>
      have hlpinit : lp.nid ∉ init.map RepEntry.nid := by
        have h2 := hndpre
        simp only [List.map_append, List.map_cons, List.map_nil] at h2
        rw [List.nodup_append] at h2
        intro hm
        exact h2.2.2 hm (by simp)
      have hsr : s.nid ≠ r.nid := by
        intro he
        exact hrpost (by simp [← he])
      have hsnotin : s.nid ∉ post'.map RepEntry.nid := by
        have h2 := hndpost
        simp only [List.map_cons, List.nodup_cons] at h2
        exact h2.1
      have hspre : ∀ t ∈ (init ++ [lp]).map RepEntry.nid, t ≠ s.nid := by
        intro t ht he
        exact hdisj ht (by simp [he])
      have hlppost : lp.nid ∉ (s :: post').map RepEntry.nid := by
        intro hm
        exact hdisj (by simp) hm
      simp only [nextPtr] at hr
      simp only [InMemoryLogbookCache.removeNodeLocked, hr]
      have hr1 : nlookup (nupdate c.nodes lp.nid fun x => { x with next := some s.nid }) r.nid
          = some { key := r.key, prev := some lp.nid, next := some s.nid } := by
        rw [nlookup_nupdate_other _ _ _ _ (Ne.symm hlpr)]
        exact hr
      simp only [hr1]
      refine ⟨trivial, trivial, trivial, ?_, ?_, ?_, ?_⟩
      · rw [hhead, nextPtr_append (init ++ [lp]) (r :: s :: post') none,
          nextPtr_append (init ++ [lp]) (s :: post') none]
        exact nextPtr_ne_nil (init ++ [lp]) (by simp) _ _
      · rw [htail]
        simp [lastPtr_append, lastPtr]
      · rw [chainB_append, Bool.and_eq_true]
        constructor
        · have h1 := chainB_retarget_next (some s.nid) hlpinit hpre
          have h2 : chainB
              (nupdate (nupdate c.nodes lp.nid fun x => { x with next := some s.nid }) s.nid
                fun x => { x with prev := some lp.nid })
              none (init ++ [lp]) (nextPtr (s :: post') none) =
              chainB (nupdate c.nodes lp.nid fun x => { x with next := some s.nid })
              none (init ++ [lp]) (nextPtr (s :: post') none) := by
            apply chainB_congr
            intro t ht
            exact nlookup_nupdate_other _ _ _ _ (hspre t.nid (List.mem_map_of_mem _ ht))
          rw [h2]
          exact h1
        · have h0 : chainB (nupdate c.nodes lp.nid fun x => { x with next := some s.nid })
              (some r.nid) (s :: post') none = true := by
            rw [chainB_congr (fun t ht => nlookup_nupdate_other _ _ _ _ ?_) _ _]
            · exact hpost
            · intro he
              exact hlppost (he ▸ List.mem_map_of_mem _ ht)
          have h1 := chainB_retarget_prev (some lp.nid) hsnotin h0
          rw [hlast]
          exact h1
      · rw [nlookup_nupdate_other _ _ _ _ (Ne.symm hsr),
          nlookup_nupdate_other _ _ _ _ (Ne.symm hlpr)]
        exact hr

theorem lastPtr_some_ne_none (l : List RepEntry) (t : Nat) :
    lastPtr (some t) l ≠ none := by
  induction l generalizing t with
  | nil => simp [lastPtr]
  | cons r rest ih => simpa [lastPtr] using ih r.nid

theorem addToFrontLocked_spec (c : InMemoryLogbookCache) (rep : List RepEntry) (r' : RepEntry)
    (hndrep : (rep.map RepEntry.nid).Nodup)
    (hfresh : r'.nid ∉ rep.map RepEntry.nid)
    (hhead : c.head = nextPtr rep none)
    (htail : c.tail = lastPtr none rep)
    (hch : chainB c.nodes none rep none = true)
    (nd : LruNode) (hnd0 : nlookup c.nodes r'.nid = some nd) (hkey : nd.key = r'.key) :
    (c.addToFrontLocked r'.nid).entries = c.entries ∧
    (c.addToFrontLocked r'.nid).maxEntries = c.maxEntries ∧
    (c.addToFrontLocked r'.nid).nextNodeId = c.nextNodeId ∧
    (c.addToFrontLocked r'.nid).head = nextPtr (r' :: rep) none ∧
    (c.addToFrontLocked r'.nid).tail = lastPtr none (r' :: rep) ∧
    chainB (c.addToFrontLocked r'.nid).nodes none (r' :: rep) none = true := by
  have hlook1 : nlookup (nupdate c.nodes r'.nid fun x => { x with next := c.head, prev := none })
      r'.nid = some { key := r'.key, prev := none, next := c.head } := by
    rw [nlookup_nupdate_self, hnd0]
    simp [hkey]
  cases rep with
  | nil =>
    simp only [nextPtr] at hhead
    simp only [lastPtr] at htail
    rw [hhead] at hlook1
    simp only [InMemoryLogbookCache.addToFrontLocked, hhead, htail, if_pos rfl]
    refine ⟨rfl, rfl, rfl, rfl, rfl, ?_⟩
    simp only [chainB, nextPtr, Bool.and_eq_true, decide_eq_true_eq]
    exact ⟨hlook1, trivial⟩
  | cons s rest =>
    have hsr' : s.nid ≠ r'.nid := by
      intro he
      exact hfresh (by simp [← he])
    have hsnotin : s.nid ∉ rest.map RepEntry.nid := by
      have h2 := hndrep
      simp only [List.map_cons, List.nodup_cons] at h2
      exact h2.1
    simp only [nextPtr] at hhead
    rw [hhead] at hlook1
    simp only [InMemoryLogbookCache.addToFrontLocked, hhead]
    have htne : c.tail ≠ none := by
      rw [htail]
      simp only [lastPtr]
      exact lastPtr_some_ne_none rest s.nid
    rw [if_neg htne]
    refine ⟨rfl, rfl, rfl, rfl, ?_, ?_⟩
    · rw [htail]
      simp [lastPtr]
    · simp only [chainB, nextPtr, Bool.and_eq_true, decide_eq_true_eq]
      constructor
      · rw [nlookup_nupdate_other _ _ _ _ (Ne.symm hsr')]
        exact hlook1
      · have h1 : chainB (nupdate c.nodes r'.nid fun x => { x with next := some s.nid, prev := none })
            none (s :: rest) none = true := by
          rw [chainB_congr (fun t ht => nlookup_nupdate_other _ _ _ _ ?_) _ _]
          · exact hch
          · intro he
            exact hfresh (he ▸ List.mem_map_of_mem _ ht)
        simpa only [chainB, nextPtr, Bool.and_eq_true, decide_eq_true_eq] using
          chainB_retarget_prev (some r'.nid) hsnotin h1

theorem moveToFrontLocked_spec (c : InMemoryLogbookCache) (pre post : List RepEntry)
    (r : RepEntry)
    (hnd : ((pre ++ r :: post).map RepEntry.nid).Nodup)
    (hhead : c.head = nextPtr (pre ++ r :: post) none)
    (htail : c.tail = lastPtr none (pre ++ r :: post))
    (hch : chainB c.nodes none (pre ++ r :: post) none = true) :
    (c.moveToFrontLocked (entryOfRep r)).entries = c.entries ∧
    (c.moveToFrontLocked (entryOfRep r)).maxEntries = c.maxEntries ∧
    (c.moveToFrontLocked (entryOfRep r)).nextNodeId = c.nextNodeId ∧
    (c.moveToFrontLocked (entryOfRep r)).head = nextPtr (r :: (pre ++ post)) none ∧
    (c.moveToFrontLocked (entryOfRep r)).tail = lastPtr none (r :: (pre ++ post)) ∧
    chainB (c.moveToFrontLocked (entryOfRep r)).nodes none (r :: (pre ++ post)) none = true := by
  have hr : nlookup c.nodes r.nid =
      some { key := r.key, prev := lastPtr none pre, next := nextPtr post none } := by
    have h := hch
    rw [chainB_append] at h
    simp only [Bool.and_eq_true] at h
    have h2 := h.2
    simp only [chainB, Bool.and_eq_true, decide_eq_true_eq] at h2
    exact h2.1
  cases pre with
  | nil =>
    have hhead' : c.head = some r.nid := by
      rw [hhead]
      rfl
    simp only [InMemoryLogbookCache.moveToFrontLocked, entryOfRep, hhead',
      eq_self_iff_true, if_true]
    refine ⟨by trivial, by trivial, by trivial, by trivial, ?_, ?_⟩
    · rw [htail]
      rfl
    · simpa using hch
  | cons p0 pre' =>
    have hrp0 : r.nid ≠ p0.nid := by
      intro he
      have h2 := hnd
      simp only [List.cons_append, List.map_cons, List.nodup_cons] at h2
      exact h2.1 (by simp [← he])
    have hnothead : ¬ ((some r.nid : Option Nat) = c.head) := by
      rw [hhead]
      simp only [List.cons_append, nextPtr]
      intro he
      exact hrp0 (by simpa using he)
    simp only [InMemoryLogbookCache.moveToFrontLocked, entryOfRep, if_neg hnothead]
    obtain ⟨he1, hm1, hn1, hh1, ht1, hc1, hl1⟩ :=
      removeNodeLocked_spec c (p0 :: pre') post r hnd hhead htail hch
    have hndsub : (((p0 :: pre') ++ post).map RepEntry.nid).Nodup := by
      have : ((p0 :: pre') ++ post).Sublist ((p0 :: pre') ++ r :: post) :=
        List.Sublist.append_left (List.sublist_cons_self _ _) _
      exact List.Nodup.sublist (this.map _) hnd
    have hfresh : r.nid ∉ ((p0 :: pre') ++ post).map RepEntry.nid := by
      intro hm
      have h2 := hnd
      simp only [List.map_append, List.map_cons] at h2 hm
      rw [List.nodup_append] at h2
      rcases List.mem_append.mp hm with hma | hmb
      · exact (h2.2.2 hma) (by simp)
      · have := h2.2.1
        rw [List.nodup_cons] at this
        exact this.1 hmb
    have hl2 : nlookup (c.removeNodeLocked r.nid).nodes r.nid =
        some { key := r.key, prev := lastPtr none (p0 :: pre'), next := nextPtr post none } := by
      rw [hl1]
      exact hr
    obtain ⟨he3, hm3, hn3, hh3, ht3, hc3⟩ :=
      addToFrontLocked_spec (c.removeNodeLocked r.nid) ((p0 :: pre') ++ post) r
        hndsub hfresh hh1 ht1 hc1 _ hl2 rfl
    refine ⟨he3.trans he1, hm3.trans hm1, hn3.trans hn1, ?_, ?_, ?_⟩
    · rw [hh3]
    · rw [ht3]
    · exact hc3

/-! ### Invariant preservation by the cache operations -/

theorem nextPtr_congr_mid (pre post : List RepEntry) (r r' : RepEntry) (q : Option Nat)
    (hnid : r'.nid = r.nid) :
    nextPtr (pre ++ r' :: post) q = nextPtr (pre ++ r :: post) q := by
  cases pre <;> simp [nextPtr, hnid]

theorem lastPtr_congr_mid (pre post : List RepEntry) (r r' : RepEntry) (p : Option Nat)
    (hnid : r'.nid = r.nid) :
    lastPtr p (pre ++ r' :: post) = lastPtr p (pre ++ r :: post) := by
  rw [lastPtr_append, lastPtr_append]
  simp [lastPtr, hnid]

theorem chainB_congr_mid (ns : List (Nat × LruNode)) (pre post : List RepEntry)
    (r r' : RepEntry) (p q : Option Nat) (hnid : r'.nid = r.nid) (hkey : r'.key = r.key) :
    chainB ns p (pre ++ r' :: post) q = chainB ns p (pre ++ r :: post) q := by
  rw [chainB_append, chainB_append]
  simp only [chainB, nextPtr, hnid, hkey]

theorem repErase_length {l : List RepEntry} {k : Int} {r : RepEntry}
    (h : repFind l k = some r) : (repErase l k).length + 1 = l.length := by
  induction l with
  | nil => simp [repFind] at h
  | cons s rest ih =>
    by_cases hk : k = s.key
    · simp [repErase, hk]
    · simp only [repFind, hk, if_false] at h
      simp [repErase, hk, ih h]

theorem mapnid_congr_mid (pre post : List RepEntry) (r r' : RepEntry)
    (hnid : r'.nid = r.nid) :
    (pre ++ r' :: post).map RepEntry.nid = (pre ++ r :: post).map RepEntry.nid := by
  simp [hnid]

theorem removeLocked_inv {c : InMemoryLogbookCache} {mrep rep : List RepEntry}
    (hinv : CacheInv c mrep rep) {k : Int} {r : RepEntry} (hfind : repFind rep k = some r) :
    CacheInv (c.removeLocked k) (repErase mrep k) (repErase rep k) ∧
    (c.removeLocked k).entries.length + 1 = c.entries.length ∧
    (c.removeLocked k).maxEntries = c.maxEntries ∧
    (c.removeLocked k).nextNodeId = c.nextNodeId := by
  obtain ⟨hent, hms, hknd, hnnd, hbound, hhead, htail, hch⟩ := hinv
  have hperm : mrep.Perm rep := Multiset.coe_eq_coe.mp hms
  have hmknd : (mrep.map RepEntry.key).Nodup := ((hperm.map RepEntry.key).nodup_iff).mpr hknd
  obtain ⟨hmem, hkey⟩ := repFind_mem hfind
  have hmfind : repFind mrep k = some r := by
    rw [← hkey]
    exact repFind_of_mem hmknd (hperm.mem_iff.mpr hmem)
  have hlook : alookup c.entries k = some (entryOfRep r) := by
    rw [hent, alookup_entriesImage, hmfind]
    rfl
  obtain ⟨pre, post, hsplit, hnotpre⟩ := repFind_split hfind
  subst hsplit
  have herase : repErase (pre ++ r :: post) k = pre ++ post :=
    repErase_append_middle hkey hnotpre
  obtain ⟨he1, hm1, hn1, hh1, ht1, hc1, _⟩ :=
    removeNodeLocked_spec c pre post r hnnd hhead htail hch
  simp only [InMemoryLogbookCache.removeLocked, hlook, entryOfRep]
  have hsub : ((pre ++ post).map RepEntry.nid).Nodup := by
    have hs : (pre ++ post).Sublist (pre ++ r :: post) :=
      List.Sublist.append_left (List.sublist_cons_self _ _) _
    exact List.Nodup.sublist (hs.map _) hnnd
  have hsubk : ((pre ++ post).map RepEntry.key).Nodup := by
    have hs : (pre ++ post).Sublist (pre ++ r :: post) :=
      List.Sublist.append_left (List.sublist_cons_self _ _) _
    exact List.Nodup.sublist (hs.map _) hknd
  refine ⟨⟨?_, ?_, ?_, ?_, ?_, ?_, ?_, ?_⟩, ?_, ?_, ?_⟩
  · show aerase (c.removeNodeLocked r.nid).entries k = entriesImage (repErase mrep k)
    rw [he1, hent, aerase_entriesImage]
  · rw [herase]
    exact Multiset.coe_eq_coe.mpr (repErase_perm hperm hmknd |>.trans (by rw [herase]))
  · rw [herase]
    exact hsubk
  · rw [herase]
    exact hsub
  · rw [herase]
    intro t ht
    show t.nid < (c.removeNodeLocked r.nid).nextNodeId
    rw [hn1]
    refine hbound t ?_
    rcases List.mem_append.mp ht with h | h
    · exact List.mem_append.mpr (Or.inl h)
    · exact List.mem_append.mpr (Or.inr (List.mem_cons_of_mem _ h))
  · rw [herase]
    exact hh1
  · rw [herase]
    exact ht1
  · rw [herase]
    exact hc1
  · show (aerase (c.removeNodeLocked r.nid).entries k).length + 1 = c.entries.length
    rw [he1, hent, aerase_entriesImage, length_entriesImage, length_entriesImage]
    exact repErase_length hmfind
  · exact hm1
  · exact hn1

theorem nlookup_cons_self (ns : List (Nat × LruNode)) (i : Nat) (nd : LruNode) :
    nlookup ((i, nd) :: ns) i = some nd := by
  simp [nlookup, alookup]

theorem nlookup_cons_ne (ns : List (Nat × LruNode)) (i : Nat) (nd : LruNode) (j : Nat)
    (h : j ≠ i) : nlookup ((i, nd) :: ns) j = nlookup ns j := by
  simp [nlookup, alookup, h]

theorem repFind_eq_of_perm {mrep rep : List RepEntry} (hperm : mrep.Perm rep)
    (hknd : (rep.map RepEntry.key).Nodup) (k : Int) :
    repFind mrep k = none ↔ repFind rep k = none := by
  rw [repFind_none_iff, repFind_none_iff]
  exact not_congr (hperm.map RepEntry.key).mem_iff

theorem Get_inv_absent {c : InMemoryLogbookCache} {mrep rep : List RepEntry}
    (hinv : CacheInv c mrep rep) {k : Int} (hfind : repFind rep k = none) (now : Int) :
    c.Get k now = (none, c) := by
  obtain ⟨hent, hms, hknd, _, _, _, _, _⟩ := hinv
  have hperm : mrep.Perm rep := Multiset.coe_eq_coe.mp hms
  have hmfind : repFind mrep k = none := (repFind_eq_of_perm hperm hknd k).mpr hfind
  have hlook : alookup c.entries k = none := by
    rw [hent, alookup_entriesImage, hmfind]
    rfl
  simp [InMemoryLogbookCache.Get, hlook]

theorem Get_lookup {c : InMemoryLogbookCache} {mrep rep : List RepEntry}
    (hinv : CacheInv c mrep rep) {k : Int} {r : RepEntry} (hfind : repFind rep k = some r) :
    alookup c.entries k = some (entryOfRep r) := by
  obtain ⟨hent, hms, hknd, _, _, _, _, _⟩ := hinv
  have hperm : mrep.Perm rep := Multiset.coe_eq_coe.mp hms
  have hmknd : (mrep.map RepEntry.key).Nodup := ((hperm.map RepEntry.key).nodup_iff).mpr hknd
  obtain ⟨hmem, hkey⟩ := repFind_mem hfind
  have hmfind : repFind mrep k = some r := by
    rw [← hkey]
    exact repFind_of_mem hmknd (hperm.mem_iff.mpr hmem)
  rw [hent, alookup_entriesImage, hmfind]
  rfl

theorem Get_inv_expired {c : InMemoryLogbookCache} {mrep rep : List RepEntry}
    (hinv : CacheInv c mrep rep) {k : Int} {r : RepEntry} (hfind : repFind rep k = some r)
    {now : Int} (hexp : r.expiresAt < now) :
    (c.Get k now).1 = none ∧
    (c.Get k now).2 = c.removeLocked k ∧
    CacheInv (c.Get k now).2 (repErase mrep k) (repErase rep k) ∧
    (c.Get k now).2.entries.length + 1 = c.entries.length ∧
    (c.Get k now).2.maxEntries = c.maxEntries ∧
    (c.Get k now).2.nextNodeId = c.nextNodeId := by
  have hlook := Get_lookup hinv hfind
  have hred : c.Get k now = (none, c.removeLocked k) := by
    simp only [InMemoryLogbookCache.Get, hlook, entryOfRep]
    rw [if_pos hexp]
  obtain ⟨hi, hl, hm, hn⟩ := removeLocked_inv hinv hfind
  rw [hred]
  exact ⟨rfl, rfl, hi, hl, hm, hn⟩

theorem Get_inv_fresh {c : InMemoryLogbookCache} {mrep rep : List RepEntry}
    (hinv : CacheInv c mrep rep) {k : Int} {r : RepEntry} (hfind : repFind rep k = some r)
    {now : Int} (hexp : ¬ r.expiresAt < now) :
    (c.Get k now).1 = some r.value ∧
    CacheInv (c.Get k now).2 mrep (r :: repErase rep k) ∧
    (c.Get k now).2.entries = c.entries ∧
    (c.Get k now).2.maxEntries = c.maxEntries ∧
    (c.Get k now).2.nextNodeId = c.nextNodeId := by
  obtain ⟨hent, hms, hknd, hnnd, hbound, hhead, htail, hch⟩ := hinv
  have hlook := Get_lookup ⟨hent, hms, hknd, hnnd, hbound, hhead, htail, hch⟩ hfind
  obtain ⟨hmem, hkey⟩ := repFind_mem hfind
  obtain ⟨pre, post, hsplit, hnotpre⟩ := repFind_split hfind
  subst hsplit
  have herase : repErase (pre ++ r :: post) k = pre ++ post :=
    repErase_append_middle hkey hnotpre
  obtain ⟨he1, hm1, hn1, hh1, ht1, hc1⟩ :=
    moveToFrontLocked_spec c pre post r hnnd hhead htail hch
  have hred : c.Get k now = (some r.value, c.moveToFrontLocked (entryOfRep r)) := by
    simp only [InMemoryLogbookCache.Get, hlook, entryOfRep]
    rw [if_neg hexp]
  rw [hred, herase]
  have hpermmid : (pre ++ r :: post).Perm (r :: (pre ++ post)) := List.perm_middle
  refine ⟨rfl, ⟨?_, ?_, ?_, ?_, ?_, ?_, ?_, ?_⟩, he1, hm1, hn1⟩
  · show (c.moveToFrontLocked (entryOfRep r)).entries = entriesImage mrep
    rw [he1, hent]
  · exact Multiset.coe_eq_coe.mpr ((Multiset.coe_eq_coe.mp hms).trans hpermmid)
  · exact ((hpermmid.map RepEntry.key).nodup_iff).mp hknd
  · exact ((hpermmid.map RepEntry.nid).nodup_iff).mp hnnd
  · intro t ht
    show t.nid < (c.moveToFrontLocked (entryOfRep r)).nextNodeId
    rw [hn1]
    exact hbound t (hpermmid.mem_iff.mpr ht)
  · exact hh1
  · exact ht1
  · exact hc1

theorem insertNew_spec {c1 : InMemoryLogbookCache} {mrep1 rep1 : List RepEntry}
    (hinv : CacheInv c1 mrep1 rep1) {k : Int} (hfind : repFind rep1 k = none)
    (lb : Logbook) (exp : Int) :
    CacheInv
      (InMemoryLogbookCache.addToFrontLocked
        ⟨(k, ⟨lb, exp, some c1.nextNodeId, some c1.nextNodeId⟩) :: c1.entries,
          c1.maxEntries, c1.head, c1.tail,
          (c1.nextNodeId, ⟨k, none, none⟩) :: c1.nodes, c1.nextNodeId + 1⟩ c1.nextNodeId)
      (⟨k, c1.nextNodeId, lb, exp⟩ :: mrep1)
      (⟨k, c1.nextNodeId, lb, exp⟩ :: rep1) := by
  obtain ⟨hent, hms, hknd, hnnd, hbound, hhead, htail, hch⟩ := hinv
  have hperm : mrep1.Perm rep1 := Multiset.coe_eq_coe.mp hms
  set nid := c1.nextNodeId with hnid
  set newR : RepEntry := ⟨k, nid, lb, exp⟩ with hnewR
  set c3 : InMemoryLogbookCache :=
    ⟨(k, ⟨lb, exp, some nid, some nid⟩) :: c1.entries, c1.maxEntries, c1.head, c1.tail,
      (nid, ⟨k, none, none⟩) :: c1.nodes, nid + 1⟩ with hc3
  have hfresh : newR.nid ∉ rep1.map RepEntry.nid := by
    intro hm
    obtain ⟨t, ht, he⟩ := List.mem_map.mp hm
    exact absurd (he ▸ hbound t ht) (lt_irrefl _)
  have hc3chain : chainB c3.nodes none rep1 none = true := by
    rw [@chainB_congr c1.nodes c3.nodes rep1 ?_ none none]
    · exact hch
    · intro t ht
      refine nlookup_cons_ne _ _ _ _ ?_
      intro he
      exact absurd (he ▸ hbound t ht) (lt_irrefl _)
  obtain ⟨he3, hm3, hn3, hh3, ht3, hc3'⟩ :=
    addToFrontLocked_spec c3 rep1 newR hnnd hfresh hhead htail hc3chain
      { key := k, prev := none, next := none } (nlookup_cons_self _ _ _) rfl
  refine ⟨?_, ?_, ?_, ?_, ?_, hh3, ht3, hc3'⟩
  · rw [he3]
    show c3.entries = entriesImage (newR :: mrep1)
    rw [hc3, hent]
    rfl
  · exact Multiset.coe_eq_coe.mpr (hperm.cons newR)
  · simp only [List.map_cons, List.nodup_cons]
    refine ⟨?_, hknd⟩
    show newR.key ∉ rep1.map RepEntry.key
    simpa [hnewR] using repFind_none_iff.mp hfind
  · simp only [List.map_cons, List.nodup_cons]
    exact ⟨hfresh, hnnd⟩
  · intro t ht
    rw [hn3]
    show t.nid < c3.nextNodeId
    rcases List.mem_cons.mp ht with h | h
    · subst h
      simp [hc3]
    · have := hbound t h
      simp only [hc3]
      omega

theorem Set_inv_existing {c : InMemoryLogbookCache} {mrep rep : List RepEntry}
    (hinv : CacheInv c mrep rep) {k : Int} {r : RepEntry} (hfind : repFind rep k = some r)
    (lb : Logbook) (ttl now : Int) :
    CacheInv (c.Set k lb ttl now)
      (⟨k, r.nid, lb, now + (if ttl ≤ 0 then defaultLogbookCacheTTL else ttl)⟩ ::
        repErase mrep k)
      (⟨k, r.nid, lb, now + (if ttl ≤ 0 then defaultLogbookCacheTTL else ttl)⟩ ::
        repErase rep k) ∧
    (c.Set k lb ttl now).entries.length = c.entries.length ∧
    (c.Set k lb ttl now).maxEntries = c.maxEntries ∧
    (c.Set k lb ttl now).nextNodeId = c.nextNodeId := by
  obtain ⟨hent, hms, hknd, hnnd, hbound, hhead, htail, hch⟩ := hinv
  have hperm : mrep.Perm rep := Multiset.coe_eq_coe.mp hms
  have hmknd : (mrep.map RepEntry.key).Nodup := ((hperm.map RepEntry.key).nodup_iff).mpr hknd
  have hlook := Get_lookup ⟨hent, hms, hknd, hnnd, hbound, hhead, htail, hch⟩ hfind
  obtain ⟨hmem, hkey⟩ := repFind_mem hfind
  obtain ⟨pre, post, hsplit, hnotpre⟩ := repFind_split hfind
  have hmfind : repFind mrep k = some r := by
    rw [← hkey]
    exact repFind_of_mem hmknd (hperm.mem_iff.mpr hmem)
  set ittl := (if ttl ≤ 0 then defaultLogbookCacheTTL else ttl) with hittl
  set r2 : RepEntry := ⟨k, r.nid, lb, now + ittl⟩ with hr2
  set c1 : InMemoryLogbookCache :=
    ⟨(k, ⟨lb, now + ittl, some r.nid, some r.nid⟩) :: aerase c.entries k,
      c.maxEntries, c.head, c.tail, c.nodes, c.nextNodeId⟩ with hc1
  have hred : c.Set k lb ttl now = c1.moveToFrontLocked (entryOfRep r2) := by
    simp only [InMemoryLogbookCache.Set, hlook, entryOfRep, hc1, hr2, hittl]
  subst hsplit
  have herase : repErase (pre ++ r :: post) k = pre ++ post :=
    repErase_append_middle hkey hnotpre
  have hnd2 : ((pre ++ r2 :: post).map RepEntry.nid).Nodup := by
    rw [mapnid_congr_mid pre post r r2 rfl]
    exact hnnd
  have hh2 : c1.head = nextPtr (pre ++ r2 :: post) none := by
    rw [nextPtr_congr_mid pre post r r2 none rfl]
    exact hhead
  have ht2 : c1.tail = lastPtr none (pre ++ r2 :: post) := by
    rw [lastPtr_congr_mid pre post r r2 none rfl]
    exact htail
  have hc2 : chainB c1.nodes none (pre ++ r2 :: post) none = true := by
    rw [chainB_congr_mid c1.nodes pre post r r2 none none rfl hkey.symm]
    exact hch
  obtain ⟨he3, hm3, hn3, hh3, ht3, hc3⟩ :=
    moveToFrontLocked_spec c1 pre post r2 hnd2 hh2 ht2 hc2
  rw [hred]
  have hkeyn : k ∉ (pre ++ post).map RepEntry.key := by
    intro hmk
    have h2 := hknd
    simp only [List.map_append, List.map_cons] at h2 hmk
    rw [List.nodup_append] at h2
    rcases List.mem_append.mp hmk with hma | hmb
    · exact (h2.2.2 hma) (by simp [← hkey])
    · have h3 := h2.2.1
      rw [List.nodup_cons] at h3
      exact h3.1 (hkey ▸ hmb)
  have hnidn : r.nid ∉ (pre ++ post).map RepEntry.nid := by
    intro hmk
    have h2 := hnnd
    simp only [List.map_append, List.map_cons] at h2 hmk
    rw [List.nodup_append] at h2
    rcases List.mem_append.mp hmk with hma | hmb
    · exact (h2.2.2 hma) (by simp)
    · have h3 := h2.2.1
      rw [List.nodup_cons] at h3
      exact h3.1 hmb
  have hsubk : ((pre ++ post).map RepEntry.key).Nodup := by
    have hs : (pre ++ post).Sublist (pre ++ r :: post) :=
      List.Sublist.append_left (List.sublist_cons_self _ _) _
    exact List.Nodup.sublist (hs.map _) hknd
  have hsubn : ((pre ++ post).map RepEntry.nid).Nodup := by
    have hs : (pre ++ post).Sublist (pre ++ r :: post) :=
      List.Sublist.append_left (List.sublist_cons_self _ _) _
    exact List.Nodup.sublist (hs.map _) hnnd
  refine ⟨⟨?_, ?_, ?_, ?_, ?_, ?_, ?_, ?_⟩, ?_, ?_, ?_⟩
  · rw [he3]
    show c1.entries = entriesImage (r2 :: repErase mrep k)
    rw [hc1, hent, aerase_entriesImage]
    rfl
  · rw [herase]
    refine Multiset.coe_eq_coe.mpr (List.Perm.cons r2 ?_)
    exact (repErase_perm hperm hmknd).trans (by rw [herase])
  · rw [herase]
    simp only [List.map_cons, List.nodup_cons]
    exact ⟨hkeyn, hsubk⟩
  · rw [herase]
    simp only [List.map_cons, List.nodup_cons]
    exact ⟨hnidn, hsubn⟩
  · rw [herase]
    intro t ht
    rw [hn3]
    show t.nid < c1.nextNodeId
    rcases List.mem_cons.mp ht with h | h
    · subst h
      exact hbound r (List.mem_append.mpr (Or.inr (List.mem_cons_self _ _)))
    · refine hbound t ?_
      rcases List.mem_append.mp h with ha | hb
      · exact List.mem_append.mpr (Or.inl ha)
      · exact List.mem_append.mpr (Or.inr (List.mem_cons_of_mem _ hb))
  · rw [hh3, herase]
  · rw [ht3, herase]
  · rw [herase] at *
    exact hc3
  · rw [he3]
    show c1.entries.length = c.entries.length
    rw [hc1]
    show (aerase c.entries k).length + 1 = c.entries.length
    rw [hent, aerase_entriesImage, length_entriesImage, length_entriesImage]
    exact repErase_length hmfind
  · exact hm3
  · exact hn3

theorem addToFrontLocked_fields (c : InMemoryLogbookCache) (nid : Nat) :
    (c.addToFrontLocked nid).entries = c.entries ∧
    (c.addToFrontLocked nid).maxEntries = c.maxEntries ∧
    (c.addToFrontLocked nid).nextNodeId = c.nextNodeId := by
  unfold InMemoryLogbookCache.addToFrontLocked
  cases c.head <;> dsimp only <;> split <;> simp

theorem Set_inv_new {c : InMemoryLogbookCache} {mrep rep : List RepEntry}
    (hinv : CacheInv c mrep rep) {k : Int} (hfind : repFind rep k = none)
    (hcap : ¬ (0 < c.maxEntries ∧ c.maxEntries ≤ c.entries.length))
    (lb : Logbook) (ttl now : Int) :
    CacheInv (c.Set k lb ttl now)
      (⟨k, c.nextNodeId, lb,
        now + (if ttl ≤ 0 then defaultLogbookCacheTTL else ttl)⟩ :: mrep)
      (⟨k, c.nextNodeId, lb,
        now + (if ttl ≤ 0 then defaultLogbookCacheTTL else ttl)⟩ :: rep) ∧
    (c.Set k lb ttl now).entries.length = c.entries.length + 1 ∧
    (c.Set k lb ttl now).maxEntries = c.maxEntries ∧
    (c.Set k lb ttl now).nextNodeId = c.nextNodeId + 1 := by
  have hms := hinv.2.1
  have hperm : mrep.Perm rep := Multiset.coe_eq_coe.mp hms
  have hmfind : repFind mrep k = none := (repFind_eq_of_perm hperm hinv.2.2.1 k).mpr hfind
  have hlook : alookup c.entries k = none := by
    rw [hinv.1, alookup_entriesImage, hmfind]
    rfl
  set ittl := (if ttl ≤ 0 then defaultLogbookCacheTTL else ttl) with hittl
  have hred : c.Set k lb ttl now =
      InMemoryLogbookCache.addToFrontLocked
        ⟨(k, ⟨lb, now + ittl, some c.nextNodeId, some c.nextNodeId⟩) :: c.entries,
          c.maxEntries, c.head, c.tail,
          (c.nextNodeId, ⟨k, none, none⟩) :: c.nodes, c.nextNodeId + 1⟩ c.nextNodeId := by
    simp only [InMemoryLogbookCache.Set, hlook, hittl]
    rw [if_neg hcap]
  have hmain := insertNew_spec hinv hfind lb (now + ittl)
  obtain ⟨hfe, hfm, hfn⟩ := addToFrontLocked_fields
    ⟨(k, ⟨lb, now + ittl, some c.nextNodeId, some c.nextNodeId⟩) :: c.entries,
      c.maxEntries, c.head, c.tail,
      (c.nextNodeId, ⟨k, none, none⟩) :: c.nodes, c.nextNodeId + 1⟩ c.nextNodeId
  rw [hred]
  refine ⟨hmain, ?_, ?_, ?_⟩
  · rw [hfe]
    rfl
  · rw [hfm]
  · rw [hfn]

theorem Set_inv_evict {c : InMemoryLogbookCache} {mrep rep : List RepEntry}
    (hinv : CacheInv c mrep rep) {k : Int} (hfind : repFind rep k = none)
    (hpos : 0 < c.maxEntries) (hfull : c.maxEntries ≤ c.entries.length)
    (lb : Logbook) (ttl now : Int) :
    ∃ init lastR, rep = init ++ [lastR] ∧
      CacheInv (c.Set k lb ttl now)
        (⟨k, c.nextNodeId, lb,
          now + (if ttl ≤ 0 then defaultLogbookCacheTTL else ttl)⟩ ::
          repErase mrep lastR.key)
        (⟨k, c.nextNodeId, lb,
          now + (if ttl ≤ 0 then defaultLogbookCacheTTL else ttl)⟩ :: init) ∧
      (c.Set k lb ttl now).entries.length = c.entries.length ∧
      (c.Set k lb ttl now).maxEntries = c.maxEntries ∧
      (c.Set k lb ttl now).nextNodeId = c.nextNodeId + 1 := by
  obtain ⟨hent, hms, hknd, hnnd, hbound, hhead, htail, hch⟩ := hinv
  have hperm : mrep.Perm rep := Multiset.coe_eq_coe.mp hms
  have hmknd : (mrep.map RepEntry.key).Nodup := ((hperm.map RepEntry.key).nodup_iff).mpr hknd
  have hmfind : repFind mrep k = none := (repFind_eq_of_perm hperm hknd k).mpr hfind
  have hlook : alookup c.entries k = none := by
    rw [hent, alookup_entriesImage, hmfind]
    rfl
  have hlen : c.entries.length = rep.length := by
    rw [hent, length_entriesImage]
    exact hperm.length_eq
  have hrepne : rep ≠ [] := by
    intro he
    rw [he] at hlen
    simp only [List.length_nil] at hlen
    omega
  rcases List.eq_nil_or_concat rep with he | ⟨init, lastR, hconcat⟩
  · exact absurd he hrepne
  rw [List.concat_eq_append] at hconcat
  refine ⟨init, lastR, hconcat, ?_⟩
  subst hconcat
  have htails : c.tail = some lastR.nid := by
    rw [htail, lastPtr_concat]
  have hndlk : nlookup c.nodes lastR.nid =
      some { key := lastR.key, prev := lastPtr none init, next := none } := by
    have h := hch
    rw [chainB_append] at h
    simp only [Bool.and_eq_true] at h
    have h2 := h.2
    simp only [chainB, nextPtr, Bool.and_eq_true, decide_eq_true_eq] at h2
    exact h2.1
  have hlastmem : lastR ∈ init ++ [lastR] := List.mem_append.mpr (Or.inr (by simp))
  have hlfind : repFind (init ++ [lastR]) lastR.key = some lastR :=
    repFind_of_mem hknd hlastmem
  have hknotin : lastR.key ∉ init.map RepEntry.key := by
    have h2 := hknd
    simp only [List.map_append, List.map_cons, List.map_nil] at h2
    rw [List.nodup_append] at h2
    intro hm
    exact h2.2.2 hm (by simp)
  have herase : repErase (init ++ [lastR]) lastR.key = init := by
    have := @repErase_append_middle init ([] : List RepEntry) lastR lastR.key
      rfl hknotin
    simpa using this
  obtain ⟨hinv1, hlen1, hm1, hn1⟩ :=
    removeLocked_inv ⟨hent, hms, hknd, hnnd, hbound, hhead, htail, hch⟩ hlfind
  rw [herase] at hinv1
  have hfind1 : repFind init k = none := by
    rw [repFind_none_iff]
    intro hm
    have := repFind_none_iff.mp hfind
    exact this (by simp [hm])
  set ittl := (if ttl ≤ 0 then defaultLogbookCacheTTL else ttl) with hittl
  set c1 := c.removeLocked lastR.key with hc1
  have hred : c.Set k lb ttl now =
      InMemoryLogbookCache.addToFrontLocked
        ⟨(k, ⟨lb, now + ittl, some c1.nextNodeId, some c1.nextNodeId⟩) :: c1.entries,
          c1.maxEntries, c1.head, c1.tail,
          (c1.nextNodeId, ⟨k, none, none⟩) :: c1.nodes, c1.nextNodeId + 1⟩ c1.nextNodeId := by
    have hcond : (0 < c.maxEntries ∧ c.maxEntries ≤ c.entries.length) = True :=
      eq_true ⟨hpos, hfull⟩
    simp only [InMemoryLogbookCache.Set, hlook, hcond, if_true, htails, hndlk, hc1, hittl]
  have hmain := insertNew_spec hinv1 hfind1 lb (now + ittl)
  obtain ⟨hfe, hfm, hfn⟩ := addToFrontLocked_fields
    ⟨(k, ⟨lb, now + ittl, some c1.nextNodeId, some c1.nextNodeId⟩) :: c1.entries,
      c1.maxEntries, c1.head, c1.tail,
      (c1.nextNodeId, ⟨k, none, none⟩) :: c1.nodes, c1.nextNodeId + 1⟩ c1.nextNodeId
  rw [hred, hn1] at *
  refine ⟨?_, ?_, ?_, ?_⟩
  · rw [← hn1]
    exact hmain
  · rw [hfe]
    show c1.entries.length + 1 = c.entries.length
    exact hlen1
  · rw [hfm]
    exact hm1
  · rw [hfn, hn1]

theorem removeLocked_absent {c : InMemoryLogbookCache} {mrep rep : List RepEntry}
    (hinv : CacheInv c mrep rep) {k : Int} (hfind : repFind rep k = none) :
    c.removeLocked k = c := by
  have hperm : mrep.Perm rep := Multiset.coe_eq_coe.mp hinv.2.1
  have hmfind : repFind mrep k = none := (repFind_eq_of_perm hperm hinv.2.2.1 k).mpr hfind
  have hlook : alookup c.entries k = none := by
    rw [hinv.1, alookup_entriesImage, hmfind]
    rfl
  simp [InMemoryLogbookCache.removeLocked, hlook]

/-- Base case: a freshly constructed cache is represented by the empty
map layout and the empty recency order. -/
theorem mkLogbookCache_inv (m : Nat) : CacheInv (mkLogbookCache m) [] [] := by
  refine ⟨rfl, rfl, ?_, ?_, ?_, rfl, rfl, rfl⟩
  · simp
  · simp
  · intro r hr
    simp at hr

/-- Every single cache operation maps a represented state to a
represented state; the capacity and the allocator only change as the
operation dictates, and the occupancy obeys the capacity bound. -/
theorem applyCacheOp_inv {c : InMemoryLogbookCache} {mrep rep : List RepEntry}
    (hinv : CacheInv c mrep rep) (op : CacheOp) :
    ∃ mrep' rep', CacheInv (applyCacheOp c op) mrep' rep' ∧
      (applyCacheOp c op).maxEntries = c.maxEntries ∧
      (0 < c.maxEntries → c.entries.length ≤ c.maxEntries →
        (applyCacheOp c op).entries.length ≤ c.maxEntries) := by
  cases op with
  | get k now =>
    cases hf : repFind rep k with
    | none =>
      refine ⟨mrep, rep, ?_, ?_, ?_⟩ <;>
        simp [applyCacheOp, Get_inv_absent hinv hf now, hinv]
    | some r =>
      by_cases hexp : r.expiresAt < now
      · obtain ⟨_, _, hi, hl, hm, _⟩ := Get_inv_expired hinv hf hexp
        refine ⟨_, _, hi, hm, fun _ hle => ?_⟩
        simp only [applyCacheOp] at hl ⊢
        omega
      · obtain ⟨_, hi, he, hm, _⟩ := Get_inv_fresh hinv hf hexp
        refine ⟨_, _, hi, hm, fun _ hle => ?_⟩
        simp only [applyCacheOp] at he ⊢
        rw [he]
        exact hle
  | set k lb ttl now =>
    cases hf : repFind rep k with
    | some r =>
      obtain ⟨hi, hl, hm, _⟩ := Set_inv_existing hinv hf lb ttl now
      refine ⟨_, _, hi, hm, fun _ hle => ?_⟩
      simp only [applyCacheOp] at hl ⊢
      rw [hl]
      exact hle
    | none =>
      by_cases hcap : 0 < c.maxEntries ∧ c.maxEntries ≤ c.entries.length
      · obtain ⟨hi, hl, hm, _⟩ := Set_inv_evict hinv hf hcap.1 hcap.2 lb ttl now
        obtain ⟨init, lastR, _, hi2, hl2, hm2, _⟩ := Set_inv_evict hinv hf hcap.1 hcap.2 lb ttl now
        refine ⟨_, _, hi2, hm2, fun _ hle => ?_⟩
        simp only [applyCacheOp] at hl2 ⊢
        rw [hl2]
        exact hle
      · obtain ⟨hi, hl, hm, _⟩ := Set_inv_new hinv hf hcap lb ttl now
        refine ⟨_, _, hi, hm, fun hpos hle => ?_⟩
        simp only [applyCacheOp] at hl ⊢
        rw [hl]
        rw [not_and] at hcap
        have := hcap hpos
        omega
  | invalidate k =>
    cases hf : repFind rep k with
    | none =>
      refine ⟨mrep, rep, ?_, ?_, ?_⟩ <;>
        simp [applyCacheOp, InMemoryLogbookCache.Invalidate,
          removeLocked_absent hinv hf, hinv]
    | some r =>
      obtain ⟨hi, hl, hm, _⟩ := removeLocked_inv hinv hf
      exact ⟨_, _, hi, hm, fun _ hle => by
        simp only [applyCacheOp, InMemoryLogbookCache.Invalidate] at hl ⊢
        omega⟩

/-- Any run of cache operations from a represented state ends in a
represented state with the same capacity, and never exceeds a positive
capacity. -/
theorem runCacheOps_inv {c : InMemoryLogbookCache} {mrep rep : List RepEntry}
    (hinv : CacheInv c mrep rep) (ops : List CacheOp) :
    ∃ mrep' rep', CacheInv (runCacheOps c ops) mrep' rep' ∧
      (runCacheOps c ops).maxEntries = c.maxEntries ∧
      (0 < c.maxEntries → c.entries.length ≤ c.maxEntries →
        (runCacheOps c ops).entries.length ≤ c.maxEntries) := by
  induction ops generalizing c mrep rep with
  | nil => exact ⟨mrep, rep, hinv, rfl, fun _ h => h⟩
  | cons op rest ih =>
    obtain ⟨mrep1, rep1, hi1, hm1, hb1⟩ := applyCacheOp_inv hinv op
    obtain ⟨mrep2, rep2, hi2, hm2, hb2⟩ := ih hi1
    refine ⟨mrep2, rep2, hi2, ?_, ?_⟩
    · show (runCacheOps (applyCacheOp c op) rest).maxEntries = c.maxEntries
      rw [hm2, hm1]
    · intro hpos hle
      show (runCacheOps (applyCacheOp c op) rest).entries.length ≤ c.maxEntries
      have h1 := hb1 hpos hle
      have h2 := hb2 (by rw [hm1]; exact hpos) (by rw [hm1]; exact h1)
      rw [hm1] at h2
      exact h2

/-- A concrete logbook value used by the concrete instantiations below. -/
def demoLogbook : Logbook :=
  { id := 7, callsign := "W1AW", name := "Default HF", userId := 1 }

/-- A second concrete logbook value. -/
def demoLogbook2 : Logbook :=
  { id := 8, callsign := "TEST1", name := "Backup VHF", userId := 2 }

/-- C10: starting from a newly constructed cache, after every finite
sequence of sequentially executed `Get`, `Set` and `Invalidate`
operations the cache state is structurally consistent: there are a map
layout `mrep` and a recency order `rep` (permutations of each other,
with unambiguous keys and node ids) such that the `entries` map is
exactly the image of `mrep`, every map entry's stored node pointer is
the node carrying its key, and the node heap spells out `rep` as a
well-formed doubly-linked list — `head` points at the first node, each
node's `prev`/`next` are its neighbours (`prev` of the first and
`next` of the last are nil), and `tail` points at the last node.  In
particular the key set of the map equals the key set of the recency
list. -/
theorem cache_structural_consistency (m : Nat) (ops : List CacheOp) :
    ∃ mrep rep, CacheInv (runCacheOps (mkLogbookCache m) ops) mrep rep ∧
      (runCacheOps (mkLogbookCache m) ops).entries.map Prod.fst = mrep.map RepEntry.key ∧
      (mrep.map RepEntry.key).Perm (rep.map RepEntry.key) := by
  obtain ⟨mrep, rep, hi, _, _⟩ := runCacheOps_inv (mkLogbookCache_inv m) ops
  refine ⟨mrep, rep, hi, ?_, ?_⟩
  · rw [hi.1]
    simp [entriesImage]
  · exact (Multiset.coe_eq_coe.mp hi.2.1).map RepEntry.key

/-- C6: for every finite sequence of `Get`, `Set` and `Invalidate`
operations starting from a newly constructed cache with positive
configured capacity, the number of resident entries never exceeds that
capacity (the bound holds after the whole sequence, hence — the
sequence being arbitrary — after each operation of any longer
sequence). -/
theorem cache_capacity_bound (m : Nat) (hm : 0 < m) (ops : List CacheOp) :
    (runCacheOps (mkLogbookCache m) ops).entries.length ≤ m := by
  obtain ⟨mrep, rep, _, _, hb⟩ := runCacheOps_inv (mkLogbookCache_inv m) ops
  exact hb hm (by simp [mkLogbookCache])

/-- Witness for the capacity bound: a four-operation run over a
capacity-2 cache stays within two resident entries. -/
theorem cache_capacity_bound_witness :
    0 < 2 ∧
    (runCacheOps (mkLogbookCache 2)
      [CacheOp.set 1 demoLogbook 100 0, CacheOp.set 2 demoLogbook2 100 0,
        CacheOp.set 3 demoLogbook 100 1, CacheOp.get 1 2]).entries.length ≤ 2 :=
  ⟨by decide, cache_capacity_bound 2 (by decide)
    [CacheOp.set 1 demoLogbook 100 0, CacheOp.set 2 demoLogbook2 100 0,
      CacheOp.set 3 demoLogbook 100 1, CacheOp.get 1 2]⟩

theorem CacheInv_lookup_none_iff {c : InMemoryLogbookCache} {mrep rep : List RepEntry}
    (hinv : CacheInv c mrep rep) (k : Int) :
    alookup c.entries k = none ↔ k ∉ rep.map RepEntry.key := by
  have hperm : mrep.Perm rep := Multiset.coe_eq_coe.mp hinv.2.1
  rw [hinv.1, alookup_entriesImage]
  constructor
  · intro h
    have : repFind mrep k = none := by
      cases hf : repFind mrep k with
      | none => rfl
      | some r => rw [hf] at h; simp at h
    exact fun hm => (repFind_none_iff.mp this) ((hperm.map RepEntry.key).mem_iff.mpr hm)
  · intro h
    have : repFind mrep k = none :=
      repFind_none_iff.mpr (fun hm => h ((hperm.map RepEntry.key).mem_iff.mp hm))
    rw [this]
    rfl

/-- C5: for every cache state that is structurally represented (which,
by `runCacheOps_inv`, covers every state reachable from a fresh cache)
and is at capacity, a `Set` of a key not currently present removes
exactly the least recently accessed-or-inserted entry — the tail
`lastR` of the recency order `rep` — and no other: afterwards the
evicted key is absent, the new key is present at the
most-recently-used position, and all other previously resident entries
are still present.  The recency order itself, under which `Get` on a
fresh entry and `Set` on an existing entry promote to the front, is
the `rep` component maintained by `CacheInv` through `Get_inv_fresh`
and `Set_inv_existing`. -/
theorem set_at_capacity_evicts_lru_tail {c : InMemoryLogbookCache}
    {mrep rep : List RepEntry} (hinv : CacheInv c mrep rep) (k : Int)
    (hfind : repFind rep k = none) (hpos : 0 < c.maxEntries)
    (hfull : c.maxEntries ≤ c.entries.length) (lb : Logbook) (ttl now : Int) :
    ∃ init lastR, rep = init ++ [lastR] ∧
      CacheInv (c.Set k lb ttl now)
        (⟨k, c.nextNodeId, lb,
          now + (if ttl ≤ 0 then defaultLogbookCacheTTL else ttl)⟩ ::
          repErase mrep lastR.key)
        (⟨k, c.nextNodeId, lb,
          now + (if ttl ≤ 0 then defaultLogbookCacheTTL else ttl)⟩ :: init) ∧
      alookup (c.Set k lb ttl now).entries lastR.key = none ∧
      alookup (c.Set k lb ttl now).entries k ≠ none ∧
      (∀ r ∈ init, alookup (c.Set k lb ttl now).entries r.key ≠ none) ∧
      (c.Set k lb ttl now).entries.length = c.entries.length := by
  obtain ⟨init, lastR, hconcat, hinv2, hlen2, hm2, hn2⟩ :=
    Set_inv_evict hinv hfind hpos hfull lb ttl now
  have hknd : (rep.map RepEntry.key).Nodup := hinv.2.2.1
  have hkrep := repFind_none_iff.mp hfind
  have hlastne : lastR.key ≠ k := by
    intro he
    refine hkrep ?_
    rw [hconcat, ← he]
    simp
  have hlastinit : lastR.key ∉ init.map RepEntry.key := by
    have h2 := hknd
    rw [hconcat] at h2
    simp only [List.map_append, List.map_cons, List.map_nil] at h2
    rw [List.nodup_append] at h2
    intro hm
    exact h2.2.2 hm (by simp)
  refine ⟨init, lastR, hconcat, hinv2, ?_, ?_, ?_, hlen2⟩
  · rw [CacheInv_lookup_none_iff hinv2]
    simp only [List.map_cons, List.mem_cons]
    rintro (h | h)
    · exact hlastne h
    · exact hlastinit h
  · rw [Ne, CacheInv_lookup_none_iff hinv2]
    simp
  · intro r hr
    rw [Ne, CacheInv_lookup_none_iff hinv2]
    simp only [List.map_cons, List.mem_cons, not_or, not_not]
    intro hno
    exact hno.2 (List.mem_map_of_mem _ hr)

/-- Witness for the eviction theorem: a capacity-2 cache filled with
keys 1 then 2, where key 2 is the most recently used; a `Set` of
absent key 3 evicts exactly key 1, the recency tail. -/
theorem set_at_capacity_evicts_lru_tail_witness :
    ∃ init lastR,
      ([⟨2, 1, demoLogbook2, 100⟩, ⟨1, 0, demoLogbook, 100⟩] : List RepEntry) =
        init ++ [lastR] ∧
      CacheInv ((runCacheOps (mkLogbookCache 2)
          [CacheOp.set 1 demoLogbook 100 0, CacheOp.set 2 demoLogbook2 100 0]).Set
            3 demoLogbook 100 5)
        (⟨3, (runCacheOps (mkLogbookCache 2)
          [CacheOp.set 1 demoLogbook 100 0,
            CacheOp.set 2 demoLogbook2 100 0]).nextNodeId, demoLogbook,
          5 + (if (100 : Int) ≤ 0 then defaultLogbookCacheTTL else 100)⟩ ::
          repErase [⟨2, 1, demoLogbook2, 100⟩, ⟨1, 0, demoLogbook, 100⟩] lastR.key)
        (⟨3, (runCacheOps (mkLogbookCache 2)
          [CacheOp.set 1 demoLogbook 100 0,
            CacheOp.set 2 demoLogbook2 100 0]).nextNodeId, demoLogbook,
          5 + (if (100 : Int) ≤ 0 then defaultLogbookCacheTTL else 100)⟩ :: init) ∧
      alookup ((runCacheOps (mkLogbookCache 2)
        [CacheOp.set 1 demoLogbook 100 0, CacheOp.set 2 demoLogbook2 100 0]).Set
          3 demoLogbook 100 5).entries lastR.key = none ∧
      alookup ((runCacheOps (mkLogbookCache 2)
        [CacheOp.set 1 demoLogbook 100 0, CacheOp.set 2 demoLogbook2 100 0]).Set
          3 demoLogbook 100 5).entries 3 ≠ none ∧
      (∀ r ∈ init, alookup ((runCacheOps (mkLogbookCache 2)
        [CacheOp.set 1 demoLogbook 100 0, CacheOp.set 2 demoLogbook2 100 0]).Set
          3 demoLogbook 100 5).entries r.key ≠ none) ∧
      ((runCacheOps (mkLogbookCache 2)
        [CacheOp.set 1 demoLogbook 100 0, CacheOp.set 2 demoLogbook2 100 0]).Set
          3 demoLogbook 100 5).entries.length =
        (runCacheOps (mkLogbookCache 2)
          [CacheOp.set 1 demoLogbook 100 0,
            CacheOp.set 2 demoLogbook2 100 0]).entries.length :=
  set_at_capacity_evicts_lru_tail (by decide) 3 (by decide) (by decide) (by decide)
    demoLogbook 100 5

/-- C4 counterexample: on the code as written, `Set` with
`ttl = -1` nanosecond does NOT produce an entry that is expired once
that duration has elapsed.  One nanosecond after the `Set` (well after
the -1ns duration has elapsed) the `Get` is a hit returning the value,
and the entry still counts towards the number of resident entries —
because `Set` coerces every non-positive TTL to the 5-minute default
(`if ttl <= 0 { ttl = defaultLogbookCacheTTL }` in `service/cache.go`). -/
theorem negativeTtl_immediate_get_is_hit :
    ((newInMemoryLogbookCache.Set 7 demoLogbook (-1) 0).Get 7 1).1 = some demoLogbook ∧
    alookup ((newInMemoryLogbookCache.Set 7 demoLogbook (-1) 0).Get 7 1).2.entries 7 ≠
      none ∧
    ((newInMemoryLogbookCache.Set 7 demoLogbook (-1) 0).Get 7 1).2.entries.length = 1 := by
  decide

/-- C4 as amended: `Set` with `ttl = -1`ns (like any non-positive TTL)
stores the entry with the default five-minute TTL.  A `Get` at any
instant up to `now + defaultLogbookCacheTTL` is a hit returning the
value; only a `Get` strictly after that instant misses, and then the
entry is removed and no longer counts toward the number of resident
entries. -/
theorem negativeTtl_coerced_to_default_ttl {c : InMemoryLogbookCache}
    {mrep rep : List RepEntry} (hinv : CacheInv c mrep rep) {k : Int}
    (hfind : repFind rep k = none)
    (hcap : ¬ (0 < c.maxEntries ∧ c.maxEntries ≤ c.entries.length))
    (lb : Logbook) (now now' : Int) :
    (¬ now + defaultLogbookCacheTTL < now' →
      ((c.Set k lb (-1) now).Get k now').1 = some lb) ∧
    (now + defaultLogbookCacheTTL < now' →
      ((c.Set k lb (-1) now).Get k now').1 = none ∧
      alookup ((c.Set k lb (-1) now).Get k now').2.entries k = none ∧
      ((c.Set k lb (-1) now).Get k now').2.entries.length + 1 =
        (c.Set k lb (-1) now).entries.length) := by
  obtain ⟨hinv1, _, _, _⟩ := Set_inv_new hinv hfind hcap lb (-1) now
  have hif : (if (-1 : Int) ≤ 0 then defaultLogbookCacheTTL else -1) =
      defaultLogbookCacheTTL := by norm_num
  rw [hif] at hinv1
  set newR : RepEntry := ⟨k, c.nextNodeId, lb, now + defaultLogbookCacheTTL⟩ with hnewR
  have hfind1 : repFind (newR :: rep) k = some newR := by
    simp [repFind]
  constructor
  · intro hne
    have hexp : ¬ newR.expiresAt < now' := hne
    exact (Get_inv_fresh hinv1 hfind1 hexp).1
  · intro hlt
    have hexp : newR.expiresAt < now' := hlt
    obtain ⟨h1, _, hi2, hl2, _, _⟩ := Get_inv_expired hinv1 hfind1 hexp
    refine ⟨h1, ?_, hl2⟩
    rw [CacheInv_lookup_none_iff hi2]
    have herase : repErase (newR :: rep) k = rep := by
      simp [repErase]
    rw [herase]
    exact repFind_none_iff.mp hfind

/-- Witness for the amended C4 theorem, at a fresh default cache:
a `Get` one nanosecond after the default TTL elapsed misses and drops
the entry. -/
theorem negativeTtl_coerced_to_default_ttl_witness :
    ((newInMemoryLogbookCache.Set 7 demoLogbook (-1) 0).Get 7 300000000001).1 = none ∧
    alookup ((newInMemoryLogbookCache.Set 7 demoLogbook (-1) 0).Get 7
      300000000001).2.entries 7 = none ∧
    ((newInMemoryLogbookCache.Set 7 demoLogbook (-1) 0).Get 7
      300000000001).2.entries.length + 1 =
      (newInMemoryLogbookCache.Set 7 demoLogbook (-1) 0).entries.length :=
  (negativeTtl_coerced_to_default_ttl
    (mkLogbookCache_inv defaultLogbookCacheMaxEntries) (by decide) (by decide)
    demoLogbook 0 300000000001).2 (by decide)

/-! ## The authentication pipeline

The request envelope, the persisted API-key record, and the
request-scoped authorization context, embedded from `types.PostRequest`,
the API-key model and `service/helpers.go`'s `requestContext`.  The
`types` module itself is not under the server sources; the fields are
those the server code reads, and the two action constants are opaque
distinct strings standing for `types.RegisterLogbookAction` and
`types.InsertQsoAction`. -/

/-- The request envelope (`types.PostRequest`): callsign, credential
(`Key`), requested action, legacy raw payload (`Data`) and the typed
logbook payload. -/
structure PostRequest where
  callsign : String
  key : String
  action : String
  data : String
  logbook : Option Logbook
deriving Repr, DecidableEq

/-- The `requestContext` struct of `service/helpers.go`. -/
structure RequestCtx where
  request : PostRequest
  user : Option User
  logbook : Option Logbook
  isValid : Bool
deriving Repr, DecidableEq

/-- Stands for `types.RegisterLogbookAction` (opaque constant). -/
def RegisterLogbookAction : String := "register_logbook"

/-- Stands for `types.InsertQsoAction` (opaque constant). -/
def InsertQsoAction : String := "insert_qso"

deriving instance DecidableEq for Except

/-- The empty-string constant `emptyString` of the server packages. -/
def emptyString : String := ""

/-- Response message of `jsonUnauthorized` (`fiber.Map` with this
message field). -/
def jsonUnauthorized : String := "Unauthorized"

/-- Response message of `jsonInternalError`. -/
def jsonInternalError : String := "Internal error"

/-- Response message of `jsonBadRequest`. -/
def jsonBadRequest : String := "Bad request"

/-- HTTP status constants used by the handlers. -/
def statusCreated : Nat := 201

def statusBadRequest : Nat := 400

def statusUnauthorized : Nat := 401

def statusInternalServerError : Nat := 500

/-- A persisted API-key record: the row behind
`FetchAPIKeyByPrefix`.  Fields follow the spec's `ApiKeyRecord`
(`prefix`, digest of the secret, owning logbook id, `revoked_at`,
`expires_at`); the server code reads `KeyHash` and `LogbookID`. -/
structure ApiKeyModel where
  pfx : String
  keyHash : String
  logbookID : Int
  revokedAt : Option Int
  expiresAt : Option Int
deriving Repr, DecidableEq

/-- Modelled from the spec: a key is *active* iff `revoked_at` is null
and `expires_at` is null or in the future (spec §3, ApiKeyRecord).
The server sources under `src/` never evaluate this predicate — that
is the content of claim C2. -/
def isActiveKey (m : ApiKeyModel) (now : Int) : Bool :=
  (match m.revokedAt with
    | none => true
    | some _ => false) &&
  (match m.expiresAt with
    | none => true
    | some t => decide (now < t))

/-- Hexadecimal-character test used by the modelled key codec. -/
def isHexDigitChar (ch : Char) : Bool :=
  (decide ('0' ≤ ch) && decide (ch ≤ '9')) ||
  (decide ('a' ≤ ch) && decide (ch ≤ 'f')) ||
  (decide ('A' ≤ ch) && decide (ch ≤ 'F'))

/-- Split a character list at every dot separator. -/
def splitOnDot : List Char → List (List Char)
  | [] => [[]]
  | c :: rest =>
    if c = '.' then [] :: splitOnDot rest
    else
      match splitOnDot rest with
      | [] => [[c]]
      | g :: gs => (c :: g) :: gs

/-- Modelled from the spec: `apikey.ParseApiKey` of the
`Station-Manager/apikey` module, which is not under the server
sources.  Per spec §4.1 the parse fails with `MalformedKey` unless the
key contains exactly one separator splitting it into a non-empty
prefix and a non-empty secret of the expected hex length (64 hex
characters for the 32-byte secret). -/
def ParseApiKey (fullKey : String) : Except String (String × String) :=
  match splitOnDot fullKey.data with
  | [p, s] =>
    if p ≠ [] ∧ s.length = 64 ∧ s.all isHexDigitChar then
      .ok (String.mk p, String.mk s)
    else .error "MalformedKey"
  | _ => .error "MalformedKey"

/-- Modelled from the spec: `apikey.ValidateApiKey` of the missing
`apikey` module.  Per spec §4.2 it re-parses the presented full key
and compares the digest of its secret half against the stored digest
with a constant-time comparison; the deterministic one-way digest
function (KeyDigest.Digest, with its server-held pepper) is an oracle
parameter `digest`. -/
def ValidateApiKey (digest : String → String) (fullKey : String) (keyHash : String) :
    Except String Bool :=
  match ParseApiKey fullKey with
  | .error e => .error e
  | .ok (_, secret) => .ok (digest secret == keyHash)

/-- The environment of oracle functions behind a `Service`: the digest
primitive from the `apikey` module, the storage fetches of
`database.Service`, the password KDF verification, the logbook cache
(nil-able), and the instant `time.Now()` reads during the request. -/
structure ServiceEnv where
  digest : String → String
  fetchAPIKeyByPfx : String → Except String ApiKeyModel
  fetchUserByCallsign : String → Except String User
  fetchLogbookByID : Int → Except String Logbook
  verifyPassword : String → String → Except String Bool
  logbookCache : Option InMemoryLogbookCache
  now : Int

/-- One observable access performed by `fetchLogbookWithCache`. -/
inductive FetchEv where
  | cacheGet (id : Int)
  | dbFetch (id : Int)
  | cacheSet (id : Int)
deriving Repr, DecidableEq

/-- The function `fetchLogbookWithCache` from `service/cache.go`:
nil-service, nil-context and zero-id guards, then the cache probe,
then the database fall-back with a write-through `Set`.  `s = none`
models a nil `*Service` receiver and `ctx = none` a nil context.  The
result carries the value or error, the cache state left behind, and
the trace of cache and storage accesses. -/
def fetchLogbookWithCache (s : Option ServiceEnv) (ctx : Option Unit) (logbookID : Int) :
    Except String Logbook × Option InMemoryLogbookCache × List FetchEv :=
  match s with
  | none => (.error "nil service", none, [])
  | some svc =>
    match ctx with
    | none => (.error "nil context", svc.logbookCache, [])
    | some _ =>
      if logbookID = 0 then (.error "logbookID is zero", svc.logbookCache, [])
      else
        match svc.logbookCache with
        | some cache =>
          match cache.Get logbookID svc.now with
          | (some lb, cache1) => (.ok lb, some cache1, [FetchEv.cacheGet logbookID])
          | (none, cache1) =>
            match svc.fetchLogbookByID logbookID with
            | .error e =>
              (.error e, some cache1, [FetchEv.cacheGet logbookID, FetchEv.dbFetch logbookID])
            | .ok lb =>
              (.ok lb, some (cache1.Set logbookID lb defaultLogbookCacheTTL svc.now),
                [FetchEv.cacheGet logbookID, FetchEv.dbFetch logbookID,
                  FetchEv.cacheSet logbookID])
        | none =>
          match svc.fetchLogbookByID logbookID with
          | .error e => (.error e, none, [FetchEv.dbFetch logbookID])
          | .ok lb => (.ok lb, none, [FetchEv.dbFetch logbookID])

/-- The function `isValidApiKey` from `service/middleware.go`:
empty-key guard, key-codec parse, record fetch by prefix, digest
verification, then the zero-logbook-id sanity check before the
validity test.  Returns the validity flag and the owning logbook id. -/
def isValidApiKey (env : ServiceEnv) (fullKey : String) : Except String (Bool × Int) :=
  if fullKey = emptyString then .error "API key is empty"
  else
    match ParseApiKey fullKey with
    | .error e => .error e
    | .ok (pfx, _) =>
      match env.fetchAPIKeyByPfx pfx with
      | .error e => .error e
      | .ok model =>
        match ValidateApiKey env.digest fullKey model.keyHash with
        | .error e => .error e
        | .ok valid =>
          if model.logbookID = 0 then .error "Logbook ID is zero"
          else if !valid then .ok (false, 0)
          else .ok (valid, model.logbookID)

/-- The function `fetchUser` from `service/middleware.go`: empty
callsign guard, storage fetch, model-to-type conversion (a mechanical
field copy, embedded as the identity), and the e-mail-verification
check. -/
def fetchUser (env : ServiceEnv) (callsign : String) : Except String User :=
  if callsign = emptyString then .error "Callsign is empty"
  else
    match env.fetchUserByCallsign callsign with
    | .error e => .error e
    | .ok user =>
      if user.emailConfirmed = false then .error "User's email has not been verified"
      else .ok user

/-- The function `isValidPassword` from `service/middleware.go`. -/
def isValidPassword (env : ServiceEnv) (hash pass : String) : Except String Bool :=
  if pass = emptyString ∨ hash = emptyString then .error "Password or hash is empty"
  else env.verifyPassword hash pass

/-- The outward decision of a middleware: a terminal rejection with
its HTTP status and body message, or hand-off to the downstream
handler with the stored request-scoped context. -/
inductive MwOut where
  | reject (status : Nat) (body : String)
  | next (ctx : RequestCtx)
deriving Repr, DecidableEq

/-- The handler returned by `apikeyAuthNMiddleware` in
`service/middleware.go`: context retrieval from locals (`none` models
a missing or uncastable context), API-key validation, logbook
resolution through the cache, then binding of the logbook and
scrubbing of the credential before `c.Next()`.  The result also
carries the cache state left behind. -/
def apikeyAuthNMiddleware (env : ServiceEnv) (locals : Option RequestCtx) :
    MwOut × Option InMemoryLogbookCache :=
  match locals with
  | none => (.reject statusInternalServerError jsonInternalError, env.logbookCache)
  | some reqCtx =>
    match isValidApiKey env reqCtx.request.key with
    | .error _ => (.reject statusUnauthorized jsonUnauthorized, env.logbookCache)
    | .ok (validApiKey, logbookId) =>
      if !validApiKey then (.reject statusUnauthorized jsonUnauthorized, env.logbookCache)
      else
        let reqCtx1 := { reqCtx with isValid := validApiKey }
        match fetchLogbookWithCache (some env) (some ()) logbookId with
        | (.error _, cache1, _) => (.reject statusUnauthorized jsonUnauthorized, cache1)
        | (.ok logbook, cache1, _) =>
          let reqCtx2 := { reqCtx1 with logbook := some logbook }
          let reqCtx3 := { reqCtx2 with request := { reqCtx2.request with key := "" } }
          (.next reqCtx3, cache1)

/-- The handler returned by `passwordAuthNMiddleware` in
`service/middleware.go`: context retrieval, user fetch by callsign,
password verification, then binding of the user and scrubbing of the
credential before `c.Next()`. -/
def passwordAuthNMiddleware (env : ServiceEnv) (locals : Option RequestCtx) : MwOut :=
  match locals with
  | none => .reject statusInternalServerError jsonInternalError
  | some reqCtx =>
    match fetchUser env reqCtx.request.callsign with
    | .error _ => .reject statusUnauthorized jsonUnauthorized
    | .ok user =>
      match isValidPassword env user.passHash reqCtx.request.key with
      | .error _ => .reject statusUnauthorized jsonUnauthorized
      | .ok validPass =>
        if !validPass then .reject statusUnauthorized jsonUnauthorized
        else
          let reqCtx1 := { reqCtx with isValid := validPass, user := some user }
          let reqCtx2 := { reqCtx1 with request := { reqCtx1.request with key := "" } }
          .next reqCtx2

/-! ## The provisioning handler -/

/-- The environment of a `registerLogbookHandler` execution: the
request context stored by the middlewares (`none` models a missing or
uncastable context), the validator verdict, the presence of the
database service, and the outcome of each transactional step as
performed by `database.Service` and the `apikey` module.
`generateApiKey` yields the one-time full key, the prefix and the
digest. -/
structure ProvisionEnv where
  reqCtx : Option RequestCtx
  validateOk : Bool
  dbPresent : Bool
  beginTx : Except String Unit
  insertLogbook : Logbook → Except String Logbook
  generateApiKey : Except String (String × String × String)
  insertAPIKey : String → String → String → Int → Except String Unit
  commit : Except String Unit
  rollback : Except String Unit

/-- One observable transaction event of a provisioning run. -/
inductive TxEv where
  | began
  | insertedLogbook
  | generatedKey
  | insertedAPIKey
  | rolledBack
  | committed
deriving Repr, DecidableEq

/-- The handler `registerLogbookHandler` from `service/service.go`:
context retrieval, payload and validation checks, the user and
database sanity checks, then the transaction — insert logbook, check
the returned id for zero, generate the API key, insert the key row,
commit — rolling back before every error response inside the
transaction and returning the one-time full key with the created
status only after a successful commit.  The result is the response
(status and message body) plus the trace of transaction events. -/
def registerLogbookHandler (env : ProvisionEnv) : (Nat × String) × List TxEv :=
  match env.reqCtx with
  | none => ((statusInternalServerError, jsonInternalError), [])
  | some rc =>
    match rc.request.logbook with
    | none => ((statusBadRequest, jsonBadRequest), [])
    | some lb0 =>
      if env.validateOk = false then ((statusBadRequest, jsonBadRequest), [])
      else
        match rc.user with
        | none => ((statusInternalServerError, jsonInternalError), [])
        | some user =>
          if env.dbPresent = false then ((statusInternalServerError, jsonInternalError), [])
          else
            match env.beginTx with
            | .error _ => ((statusInternalServerError, jsonInternalError), [])
            | .ok _ =>
              match env.insertLogbook { lb0 with userId := user.id } with
              | .error _ =>
                ((statusInternalServerError, jsonInternalError),
                  [TxEv.began, TxEv.rolledBack])
              | .ok lb2 =>
                if lb2.id = 0 then
                  ((statusInternalServerError, jsonInternalError),
                    [TxEv.began, TxEv.insertedLogbook, TxEv.rolledBack])
                else
                  match env.generateApiKey with
                  | .error _ =>
                    ((statusInternalServerError, jsonInternalError),
                      [TxEv.began, TxEv.insertedLogbook, TxEv.rolledBack])
                  | .ok (fullKey, pfx, hash) =>
                    match env.insertAPIKey lb2.callsign pfx hash lb2.id with
                    | .error _ =>
                      ((statusInternalServerError, jsonInternalError),
                        [TxEv.began, TxEv.insertedLogbook, TxEv.generatedKey,
                          TxEv.rolledBack])
                    | .ok _ =>
                      match env.commit with
                      | .error _ =>
                        ((statusInternalServerError, jsonInternalError),
                          [TxEv.began, TxEv.insertedLogbook, TxEv.generatedKey,
                            TxEv.insertedAPIKey])
                      | .ok _ =>
                        ((statusCreated, fullKey),
                          [TxEv.began, TxEv.insertedLogbook, TxEv.generatedKey,
                            TxEv.insertedAPIKey, TxEv.committed])

/-! ## The earlier `basicChecks` pipeline revision

The revision of `basicChecks` in the `server` package (the one whose
step 3 fetches the user before step 4 validates the action), together
with that revision's `isValidateAction`, `isValidApiKey` stub,
`isValidPassword` and `validatePostRequest`. -/

/-- The `requestData` struct stored in locals by that revision. -/
structure RequestData where
  isValid : Bool
  action : String
  data : String
deriving Repr, DecidableEq

/-- The environment of a rev-1 `basicChecks` execution: the parsed
envelope (`none` models a `BodyParser` failure) and the storage and
KDF oracles. -/
structure BasicChecksEnv where
  parsedRequest : Option PostRequest
  fetchUserByCallsign : String → Except String User
  verifyPassword : String → String → Except String Bool

/-- One observable credential or principal access of a rev-1
`basicChecks` run. -/
inductive AuthEv where
  | fetchedUser (callsign : String)
  | verifiedPassword
  | checkedApiKey
deriving Repr, DecidableEq

/-- The outcome of a rev-1 `basicChecks` run: a status rejection, a
raw error return (the `validatePostRequest` failure path returns the
error itself), or hand-off with the stored user and request data. -/
inductive Rev1Out where
  | reject (status : Nat) (body : String)
  | errorOut
  | next (user : User) (rd : RequestData)
deriving Repr, DecidableEq

/-- The rev-1 `validatePostRequest`: all four envelope fields must be
non-empty. -/
def validatePostRequest (req : PostRequest) : Bool :=
  !(req.action = emptyString || req.key = emptyString ||
    req.callsign = emptyString || req.data = emptyString)

/-- The rev-1 `isValidateAction`: only the logbook-registration action
is known. -/
def isValidateAction (action : String) : Bool :=
  action = RegisterLogbookAction

/-- The rev-1 `isValidApiKey` stub: an empty key is an error; any
other key is reported not valid, without any storage access. -/
def isValidApiKeyRev1 (apiKey : String) : Except String Bool :=
  if apiKey = emptyString then .error "API key is empty" else .ok false

/-- The rev-1 `basicChecks` pipeline from the `server` package: parse,
envelope validation, then — in this order — the user fetch by
callsign (step 3), the action-kind check (step 4), and only then the
password or API-key credential check (step 5), storing the request
data and user in locals on success.  The result carries the trace of
principal and credential accesses. -/
def basicChecksRev1 (env : BasicChecksEnv) : Rev1Out × List AuthEv :=
  match env.parsedRequest with
  | none => (.reject statusBadRequest jsonBadRequest, [])
  | some request =>
    if validatePostRequest request = false then (.errorOut, [])
    else
      match env.fetchUserByCallsign request.callsign with
      | .error _ =>
        (.reject statusUnauthorized jsonUnauthorized, [AuthEv.fetchedUser request.callsign])
      | .ok user =>
        if isValidateAction request.action = false then
          (.reject statusBadRequest jsonBadRequest, [AuthEv.fetchedUser request.callsign])
        else
          if request.action = RegisterLogbookAction then
            match (if request.key = emptyString ∨ user.passHash = emptyString then
                .error "Password or hash is empty"
              else env.verifyPassword user.passHash request.key : Except String Bool) with
            | .error _ =>
              (.reject statusUnauthorized jsonUnauthorized,
                [AuthEv.fetchedUser request.callsign, AuthEv.verifiedPassword])
            | .ok valid =>
              (.next user { isValid := valid, action := request.action, data := request.data },
                [AuthEv.fetchedUser request.callsign, AuthEv.verifiedPassword])
          else
            match isValidApiKeyRev1 request.key with
            | .error _ =>
              (.reject statusUnauthorized jsonUnauthorized,
                [AuthEv.fetchedUser request.callsign, AuthEv.checkedApiKey])
            | .ok valid =>
              (.next user { isValid := valid, action := request.action, data := request.data },
                [AuthEv.fetchedUser request.callsign, AuthEv.checkedApiKey])

/-! ## Concrete demonstration values -/

/-- A concrete 64-hex-character secret. -/
def demoSecret : String :=
  "0123456789abcdef0123456789abcdef0123456789abcdef0123456789abcdef"

/-- A second concrete 64-hex-character secret, different from the first. -/
def demoSecret2 : String :=
  "ffff456789abcdef0123456789abcdef0123456789abcdef0123456789abcdef"

/-- A concrete full API key with a ten-character prefix. -/
def demoFullKey : String := "ABCDEFGHIJ." ++ demoSecret

/-- A concrete full key with the same prefix but the wrong secret. -/
def demoWrongSecretKey : String := "ABCDEFGHIJ." ++ demoSecret2

/-- A concrete full key with an unknown prefix. -/
def demoUnknownKey : String := "ZZZZZZZZZZ." ++ demoSecret

/-- A concrete digest oracle. -/
def demoDigest (s : String) : String := "d#" ++ s

/-- A concrete user. -/
def demoUser : User := { id := 1, passHash := demoDigest "hunter2", emailConfirmed := true }

/-- A revoked but otherwise matching API-key record: `revoked_at` is 5,
in the past of the environment's `now = 100`. -/
def demoRevokedModel : ApiKeyModel :=
  { pfx := "ABCDEFGHIJ", keyHash := demoDigest demoSecret, logbookID := 7,
    revokedAt := some 5, expiresAt := none }

/-- A concrete service environment over the demo storage. -/
def demoEnv : ServiceEnv :=
  { digest := demoDigest,
    fetchAPIKeyByPfx := fun p =>
      if p = "ABCDEFGHIJ" then .ok demoRevokedModel else .error "NotFound",
    fetchUserByCallsign := fun c => if c = "W1AW" then .ok demoUser else .error "NotFound",
    fetchLogbookByID := fun i => if i = 7 then .ok demoLogbook else .error "NotFound",
    verifyPassword := fun h p => .ok (h == demoDigest p),
    logbookCache := none,
    now := 100 }

/-- The request context a key-path request presents with the revoked
demo key. -/
def demoReqCtxKey : RequestCtx :=
  ⟨⟨"W1AW", demoFullKey, InsertQsoAction, "", none⟩, none, none, false⟩

/-- C9: a call to `fetchLogbookWithCache` with a nil service, a nil
context, or a zero logbook id returns an error without consulting the
cache and without issuing a storage fetch — the access trace is empty
and the cache left behind is exactly the one the service held. -/
theorem fetchLogbookWithCache_zero_id_guard (s : Option ServiceEnv) (ctx : Option Unit)
    (logbookID : Int) (h : s = none ∨ ctx = none ∨ logbookID = 0) :
    (∃ e, (fetchLogbookWithCache s ctx logbookID).1 = .error e) ∧
    (fetchLogbookWithCache s ctx logbookID).2.2 = [] ∧
    (fetchLogbookWithCache s ctx logbookID).2.1 = s.bind ServiceEnv.logbookCache := by
  rcases h with h | h | h
  · subst h
    exact ⟨⟨"nil service", rfl⟩, rfl, rfl⟩
  · subst h
    cases s with
    | none => exact ⟨⟨"nil service", rfl⟩, rfl, rfl⟩
    | some svc => exact ⟨⟨"nil context", rfl⟩, rfl, rfl⟩
  · subst h
    cases s with
    | none => exact ⟨⟨"nil service", rfl⟩, rfl, rfl⟩
    | some svc =>
      cases ctx with
      | none => exact ⟨⟨"nil context", rfl⟩, rfl, rfl⟩
      | some u =>
        refine ⟨⟨"logbookID is zero", ?_⟩, ?_, ?_⟩ <;>
          simp [fetchLogbookWithCache]

/-- Witness for the zero-id guard at the concrete demo service. -/
theorem fetchLogbookWithCache_zero_id_guard_witness :
    (∃ e, (fetchLogbookWithCache (some demoEnv) (some ()) 0).1 = .error e) ∧
    (fetchLogbookWithCache (some demoEnv) (some ()) 0).2.2 = [] ∧
    (fetchLogbookWithCache (some demoEnv) (some ()) 0).2.1 =
      (some demoEnv).bind ServiceEnv.logbookCache :=
  fetchLogbookWithCache_zero_id_guard (some demoEnv) (some ()) 0 (Or.inr (Or.inr rfl))

/-- C2 evaluated at the failing input: the stored record for the
presented prefix is revoked (`revoked_at = 5`, in the past of
`now = 100`), so it is not active; the prefix matches and the secret
passes digest verification; yet `isValidApiKey` reports the key valid
with the record's logbook id, and `apikeyAuthNMiddleware` authorizes
the request and passes control downstream instead of rejecting it —
no code path in the server sources consults `revoked_at` or
`expires_at`. -/
theorem isValidApiKey_accepts_revoked_key :
    isActiveKey demoRevokedModel demoEnv.now = false ∧
    isValidApiKey demoEnv demoFullKey = .ok (true, 7) ∧
    (apikeyAuthNMiddleware demoEnv (some demoReqCtxKey)).1 =
      MwOut.next
        ⟨⟨"W1AW", "", InsertQsoAction, "", none⟩, none, some demoLogbook, true⟩ := by
  decide

/-- C3: under one environment, a request presenting a syntactically
valid key whose prefix is unknown to storage (`NotFound`) and a
request presenting a key whose prefix matches a record but whose
secret fails digest verification receive identical outward responses:
the same unauthorized status and the same body. -/
theorem apikeyAuth_failure_indistinguishable (env : ServiceEnv) (rc1 rc2 : RequestCtx)
    (hke1 : rc1.request.key ≠ emptyString) (p1 s1 : String)
    (hparse1 : ParseApiKey rc1.request.key = .ok (p1, s1))
    (hnf : env.fetchAPIKeyByPfx p1 = .error "NotFound")
    (hke2 : rc2.request.key ≠ emptyString) (p2 s2 : String) (model : ApiKeyModel)
    (hparse2 : ParseApiKey rc2.request.key = .ok (p2, s2))
    (hfound : env.fetchAPIKeyByPfx p2 = .ok model)
    (hbad : env.digest s2 ≠ model.keyHash) :
    (apikeyAuthNMiddleware env (some rc1)).1 = (apikeyAuthNMiddleware env (some rc2)).1 ∧
    (apikeyAuthNMiddleware env (some rc1)).1 =
      MwOut.reject statusUnauthorized jsonUnauthorized := by
  have hiv1 : isValidApiKey env rc1.request.key = .error "NotFound" := by
    simp only [isValidApiKey, if_neg hke1, hparse1, hnf]
  have hrun1 : (apikeyAuthNMiddleware env (some rc1)).1 =
      MwOut.reject statusUnauthorized jsonUnauthorized := by
    simp only [apikeyAuthNMiddleware, hiv1]
  have hbeq : (env.digest s2 == model.keyHash) = false := by
    simpa using hbad
  have hrun2 : (apikeyAuthNMiddleware env (some rc2)).1 =
      MwOut.reject statusUnauthorized jsonUnauthorized := by
    by_cases h0 : model.logbookID = 0
    · have hiv2 : isValidApiKey env rc2.request.key = .error "Logbook ID is zero" := by
        simp only [isValidApiKey, if_neg hke2, hparse2, hfound, ValidateApiKey, hbeq,
          if_pos h0]
      simp only [apikeyAuthNMiddleware, hiv2]
    · have hiv2 : isValidApiKey env rc2.request.key = .ok (false, 0) := by
        simp only [isValidApiKey, if_neg hke2, hparse2, hfound, ValidateApiKey, hbeq,
          if_neg h0]
        rfl
      simp only [apikeyAuthNMiddleware, hiv2]
      rfl
  exact ⟨hrun1.trans hrun2.symm, hrun1⟩

/-- The demo request context presenting the unknown-prefix key. -/
def demoReqCtxUnknown : RequestCtx :=
  ⟨⟨"W1AW", demoUnknownKey, InsertQsoAction, "", none⟩, none, none, false⟩

/-- The demo request context presenting the wrong-secret key. -/
def demoReqCtxWrong : RequestCtx :=
  ⟨⟨"W1AW", demoWrongSecretKey, InsertQsoAction, "", none⟩, none, none, false⟩

/-- Witness for C3: the demo environment with a concrete unknown-prefix
key and a concrete wrong-secret key. -/
theorem apikeyAuth_failure_indistinguishable_witness :
    (apikeyAuthNMiddleware demoEnv (some demoReqCtxUnknown)).1 =
      (apikeyAuthNMiddleware demoEnv (some demoReqCtxWrong)).1 ∧
    (apikeyAuthNMiddleware demoEnv (some demoReqCtxUnknown)).1 =
      MwOut.reject statusUnauthorized jsonUnauthorized :=
  apikeyAuth_failure_indistinguishable demoEnv demoReqCtxUnknown demoReqCtxWrong
    (by decide) "ZZZZZZZZZZ" demoSecret (by decide) (by decide) (by decide)
    "ABCDEFGHIJ" demoSecret2 demoRevokedModel (by decide) (by decide) (by decide)

/-- C8: whenever either authentication middleware reaches the terminal
authorized state and passes control downstream (`next`), the stored
request-scoped context has an empty credential field (`Request.Key`),
its `IsValid` flag is set, the resolved principal is bound — a logbook
on the key path, a user on the password path — and every other request
field is exactly as received. -/
theorem authn_success_scrubs_credential (envK envP : ServiceEnv)
    (rcK rcP ctxK ctxP : RequestCtx) :
    ((apikeyAuthNMiddleware envK (some rcK)).1 = MwOut.next ctxK →
      ctxK.request.key = "" ∧ ctxK.isValid = true ∧ (∃ lb, ctxK.logbook = some lb) ∧
      ctxK.user = rcK.user ∧ ctxK.request.callsign = rcK.request.callsign ∧
      ctxK.request.action = rcK.request.action ∧ ctxK.request.data = rcK.request.data ∧
      ctxK.request.logbook = rcK.request.logbook) ∧
    (passwordAuthNMiddleware envP (some rcP) = MwOut.next ctxP →
      ctxP.request.key = "" ∧ ctxP.isValid = true ∧ (∃ u, ctxP.user = some u) ∧
      ctxP.logbook = rcP.logbook ∧ ctxP.request.callsign = rcP.request.callsign ∧
      ctxP.request.action = rcP.request.action ∧ ctxP.request.data = rcP.request.data ∧
      ctxP.request.logbook = rcP.request.logbook) := by
  constructor
  · intro h
    simp only [apikeyAuthNMiddleware] at h
    cases hiv : isValidApiKey envK rcK.request.key with
    | error e =>
      simp only [hiv] at h
      simp at h
    | ok p =>
      obtain ⟨valid, lbId⟩ := p
      simp only [hiv] at h
      cases valid with
      | false => simp at h
      | true =>
        rcases hfx : fetchLogbookWithCache (some envK) (some ()) lbId with ⟨res, cache1, tr⟩
        simp only [hfx, Bool.not_true, Bool.false_eq_true, if_false] at h
        cases res with
        | error e => simp at h
        | ok lb =>
          simp only [MwOut.next.injEq] at h
          rw [← h]
          exact ⟨rfl, rfl, ⟨lb, rfl⟩, rfl, rfl, rfl, rfl, rfl⟩
  · intro h
    simp only [passwordAuthNMiddleware] at h
    cases hfu : fetchUser envP rcP.request.callsign with
    | error e =>
      simp only [hfu] at h
      simp at h
    | ok user =>
      simp only [hfu] at h
      cases hvp : isValidPassword envP user.passHash rcP.request.key with
      | error e =>
        simp only [hvp] at h
        simp at h
      | ok validPass =>
        simp only [hvp] at h
        cases validPass with
        | false => simp at h
        | true =>
          simp only [Bool.not_true, Bool.false_eq_true, if_false, MwOut.next.injEq] at h
          rw [← h]
          exact ⟨rfl, rfl, ⟨user, rfl⟩, rfl, rfl, rfl, rfl, rfl⟩

/-- Witness for C8: both middlewares at concrete success runs over the
demo environment leave a scrubbed credential and the bound principal. -/
theorem authn_success_scrubs_credential_witness :
    (MwOut.next ⟨⟨"W1AW", "", InsertQsoAction, "", none⟩, none, some demoLogbook,
        true⟩ = MwOut.next ⟨⟨"W1AW", "", InsertQsoAction, "", none⟩, none,
        some demoLogbook, true⟩ →
      True) ∧
    ((⟨⟨"W1AW", "", InsertQsoAction, "", none⟩, none, some demoLogbook,
        true⟩ : RequestCtx).request.key = "" ∧
      (⟨⟨"W1AW", "", InsertQsoAction, "", none⟩, none, some demoLogbook,
        true⟩ : RequestCtx).isValid = true ∧
      (∃ lb, (⟨⟨"W1AW", "", InsertQsoAction, "", none⟩, none, some demoLogbook,
        true⟩ : RequestCtx).logbook = some lb) ∧
      (⟨⟨"W1AW", "", InsertQsoAction, "", none⟩, none, some demoLogbook,
        true⟩ : RequestCtx).user = demoReqCtxKey.user ∧
      (⟨⟨"W1AW", "", InsertQsoAction, "", none⟩, none, some demoLogbook,
        true⟩ : RequestCtx).request.callsign = demoReqCtxKey.request.callsign ∧
      (⟨⟨"W1AW", "", InsertQsoAction, "", none⟩, none, some demoLogbook,
        true⟩ : RequestCtx).request.action = demoReqCtxKey.request.action ∧
      (⟨⟨"W1AW", "", InsertQsoAction, "", none⟩, none, some demoLogbook,
        true⟩ : RequestCtx).request.data = demoReqCtxKey.request.data ∧
      (⟨⟨"W1AW", "", InsertQsoAction, "", none⟩, none, some demoLogbook,
        true⟩ : RequestCtx).request.logbook = demoReqCtxKey.request.logbook) :=
  ⟨fun _ => trivial,
    (authn_success_scrubs_credential demoEnv demoEnv demoReqCtxKey demoReqCtxKey
      ⟨⟨"W1AW", "", InsertQsoAction, "", none⟩, none, some demoLogbook, true⟩
      ⟨⟨"W1AW", "", InsertQsoAction, "", none⟩, none, some demoLogbook, true⟩).1
      (by decide)⟩

/-- A parsed envelope whose requested action maps to no known action
kind in the rev-1 pipeline. -/
def demoBogusReq : PostRequest :=
  ⟨"W1AW", "hunter2", "bogus_action", "d", none⟩

/-- A concrete rev-1 `basicChecks` environment holding the bogus-action
envelope over the demo storage. -/
def demoBogusEnv : BasicChecksEnv :=
  { parsedRequest := some demoBogusReq,
    fetchUserByCallsign := fun c => if c = "W1AW" then .ok demoUser else .error "NotFound",
    verifyPassword := fun h p => .ok (h == demoDigest p) }

/-- C7 evaluated at a counterexample: the requested action maps to no
known action kind and the run is rejected, yet the user principal was
fetched from storage in that run — the rev-1 `basicChecks` fetches the
user (its step 3) before it validates the action kind (its step 4), so
the rejection does not precede every principal access. -/
theorem unknown_action_fetches_principal :
    isValidateAction demoBogusReq.action = false ∧
    (basicChecksRev1 demoBogusEnv).1 = Rev1Out.reject statusBadRequest jsonBadRequest ∧
    AuthEv.fetchedUser "W1AW" ∈ (basicChecksRev1 demoBogusEnv).2 := by
  decide

/-- C7 amended: for every rev-1 run whose parsed envelope carries an
unknown action kind, no password verification and no API-key check is
performed; but the user fetch by callsign does precede the action
check — when the envelope validates and the user fetch succeeds the
run rejects with the bad-request signal after exactly that one
principal access, and when the user fetch fails the run rejects with
the unauthorized signal, again after that access. -/
theorem unknown_action_rejected_after_principal_fetch (env : BasicChecksEnv)
    (req : PostRequest) (hreq : env.parsedRequest = some req)
    (hact : isValidateAction req.action = false) :
    AuthEv.verifiedPassword ∉ (basicChecksRev1 env).2 ∧
    AuthEv.checkedApiKey ∉ (basicChecksRev1 env).2 ∧
    (validatePostRequest req = true →
      (∀ u, env.fetchUserByCallsign req.callsign = .ok u →
        basicChecksRev1 env =
          (Rev1Out.reject statusBadRequest jsonBadRequest,
            [AuthEv.fetchedUser req.callsign])) ∧
      (∀ e, env.fetchUserByCallsign req.callsign = .error e →
        basicChecksRev1 env =
          (Rev1Out.reject statusUnauthorized jsonUnauthorized,
            [AuthEv.fetchedUser req.callsign]))) := by
  cases hv : validatePostRequest req with
  | false =>
    have hrun : basicChecksRev1 env = (.errorOut, []) := by
      simp only [basicChecksRev1, hreq, hv, if_true]
    rw [hrun]
    exact ⟨by simp, by simp, fun hvt => absurd hvt (by simp)⟩
  | true =>
    cases hfu : env.fetchUserByCallsign req.callsign with
    | error e =>
      have hrun : basicChecksRev1 env =
          (.reject statusUnauthorized jsonUnauthorized,
            [AuthEv.fetchedUser req.callsign]) := by
        simp only [basicChecksRev1, hreq, hv, hfu, Bool.true_eq_false, if_false]
      rw [hrun]
      exact ⟨by simp, by simp, fun _ => ⟨fun u hu => absurd hu (by simp), fun e' _ => rfl⟩⟩
    | ok user =>
      have hrun : basicChecksRev1 env =
          (.reject statusBadRequest jsonBadRequest,
            [AuthEv.fetchedUser req.callsign]) := by
        simp only [basicChecksRev1, hreq, hv, hfu, hact, Bool.true_eq_false, if_false,
          if_true]
      rw [hrun]
      exact ⟨by simp, by simp, fun _ => ⟨fun u _ => rfl, fun e' he' => absurd he' (by simp)⟩⟩

/-- Witness for the amended C7 at the concrete bogus-action run. -/
theorem unknown_action_rejected_after_principal_fetch_witness :
    AuthEv.verifiedPassword ∉ (basicChecksRev1 demoBogusEnv).2 ∧
    AuthEv.checkedApiKey ∉ (basicChecksRev1 demoBogusEnv).2 ∧
    (validatePostRequest demoBogusReq = true →
      (∀ u, demoBogusEnv.fetchUserByCallsign demoBogusReq.callsign = .ok u →
        basicChecksRev1 demoBogusEnv =
          (Rev1Out.reject statusBadRequest jsonBadRequest,
            [AuthEv.fetchedUser demoBogusReq.callsign])) ∧
      (∀ e, demoBogusEnv.fetchUserByCallsign demoBogusReq.callsign = .error e →
        basicChecksRev1 demoBogusEnv =
          (Rev1Out.reject statusUnauthorized jsonUnauthorized,
            [AuthEv.fetchedUser demoBogusReq.callsign]))) :=
  unknown_action_rejected_after_principal_fetch demoBogusEnv demoBogusReq
    (by decide) (by decide)

/-- C1: provisioning atomicity of `registerLogbookHandler`.  Under the
pre-transaction checks (a context with a logbook payload and a user, a
validating payload, a present database handle and a successful
`BeginTx`): the one-time full key is returned with the created status
exactly when the run commits, and the returned key is the full key
produced by `GenerateApiKey`; if the logbook insertion fails, if the
returned logbook id is zero, if key generation fails, or if the
API-key insertion fails, then the transaction is rolled back and the
response is the internal error — no full key is returned. -/
theorem registerLogbook_atomicity (env : ProvisionEnv)
    (rc : RequestCtx) (lb0 : Logbook) (user : User)
    (hctx : env.reqCtx = some rc) (hlb : rc.request.logbook = some lb0)
    (hval : env.validateOk = true) (huser : rc.user = some user)
    (hdb : env.dbPresent = true) (htx : env.beginTx = .ok ()) :
    ((∃ key, (registerLogbookHandler env).1 = (statusCreated, key)) ↔
      TxEv.committed ∈ (registerLogbookHandler env).2) ∧
    (∀ key, (registerLogbookHandler env).1 = (statusCreated, key) →
      ∃ p h, env.generateApiKey = .ok (key, p, h)) ∧
    ((∃ e, env.insertLogbook { lb0 with userId := user.id } = .error e) →
      TxEv.rolledBack ∈ (registerLogbookHandler env).2 ∧
      (registerLogbookHandler env).1 = (statusInternalServerError, jsonInternalError)) ∧
    (∀ lb2, env.insertLogbook { lb0 with userId := user.id } = .ok lb2 →
      (lb2.id = 0 ∨ (∃ e, env.generateApiKey = .error e)) →
      TxEv.rolledBack ∈ (registerLogbookHandler env).2 ∧
      (registerLogbookHandler env).1 = (statusInternalServerError, jsonInternalError)) ∧
    (∀ lb2 fullKey p h, env.insertLogbook { lb0 with userId := user.id } = .ok lb2 →
      lb2.id ≠ 0 → env.generateApiKey = .ok (fullKey, p, h) →
      (∃ e, env.insertAPIKey lb2.callsign p h lb2.id = .error e) →
      TxEv.rolledBack ∈ (registerLogbookHandler env).2 ∧
      (registerLogbookHandler env).1 = (statusInternalServerError, jsonInternalError)) := by
  cases hins : env.insertLogbook { lb0 with userId := user.id } with
  | error e0 =>
    have hrun : registerLogbookHandler env =
        ((statusInternalServerError, jsonInternalError),
          [TxEv.began, TxEv.rolledBack]) := by
      simp only [registerLogbookHandler, hctx, hlb, hval, huser, hdb, htx, hins,
        Bool.true_eq_false, if_false]
    rw [hrun]
    refine ⟨⟨?_, ?_⟩, ?_, fun _ => ⟨by simp, rfl⟩, ?_, ?_⟩
    · rintro ⟨key, hk⟩
      exact absurd hk (by simp [statusCreated, statusInternalServerError])
    · intro hc
      exact absurd hc (by simp)
    · intro key hk
      exact absurd hk (by simp [statusCreated, statusInternalServerError])
    · intro lb2 h2 _
      exact absurd h2 (by simp)
    · intro lb2 fullKey p h h2 _ _ _
      exact absurd h2 (by simp)
  | ok lb2 =>
    by_cases hid : lb2.id = 0
    · have hrun : registerLogbookHandler env =
          ((statusInternalServerError, jsonInternalError),
            [TxEv.began, TxEv.insertedLogbook, TxEv.rolledBack]) := by
        simp only [registerLogbookHandler, hctx, hlb, hval, huser, hdb, htx, hins,
          Bool.true_eq_false, if_false]
        rw [if_pos hid]
      rw [hrun]
      refine ⟨⟨?_, ?_⟩, ?_, ?_, fun _ _ _ => ⟨by simp, rfl⟩, ?_⟩
      · rintro ⟨key, hk⟩
        exact absurd hk (by simp [statusCreated, statusInternalServerError])
      · intro hc
        exact absurd hc (by simp)
      · intro key hk
        exact absurd hk (by simp [statusCreated, statusInternalServerError])
      · rintro ⟨e, he⟩
        exact absurd he (by simp)
      · intro lb2' fullKey p h h2 hne _ _
        injection h2 with h22e
        subst h22e
        exact absurd hid hne
    · cases hgen : env.generateApiKey with
      | error e1 =>
        have hrun : registerLogbookHandler env =
            ((statusInternalServerError, jsonInternalError),
              [TxEv.began, TxEv.insertedLogbook, TxEv.rolledBack]) := by
          simp only [registerLogbookHandler, hctx, hlb, hval, huser, hdb, htx, hins,
            Bool.true_eq_false, if_false]
          rw [if_neg hid]
          simp only [hgen]
        rw [hrun]
        refine ⟨⟨?_, ?_⟩, ?_, ?_, fun _ _ _ => ⟨by simp, rfl⟩, ?_⟩
        · rintro ⟨key, hk⟩
          exact absurd hk (by simp [statusCreated, statusInternalServerError])
        · intro hc
          exact absurd hc (by simp)
        · intro key hk
          exact absurd hk (by simp [statusCreated, statusInternalServerError])
        · rintro ⟨e, he⟩
          exact absurd he (by simp)
        · intro lb2' fullKey p h h2 hne hg _
          exact absurd hg (by simp)
      | ok trip =>
        obtain ⟨fullKey0, pfx0, hash0⟩ := trip
        cases hkins : env.insertAPIKey lb2.callsign pfx0 hash0 lb2.id with
        | error e2 =>
          have hrun : registerLogbookHandler env =
              ((statusInternalServerError, jsonInternalError),
                [TxEv.began, TxEv.insertedLogbook, TxEv.generatedKey,
                  TxEv.rolledBack]) := by
            simp only [registerLogbookHandler, hctx, hlb, hval, huser, hdb, htx, hins,
              Bool.true_eq_false, if_false]
            rw [if_neg hid]
            simp only [hgen, hkins]
          rw [hrun]
          refine ⟨⟨?_, ?_⟩, ?_, ?_, ?_, fun _ _ _ _ _ _ _ _ => ⟨by simp, rfl⟩⟩
          · rintro ⟨key, hk⟩
            exact absurd hk (by simp [statusCreated, statusInternalServerError])
          · intro hc
            exact absurd hc (by simp)
          · intro key hk
            exact absurd hk (by simp [statusCreated, statusInternalServerError])
          · rintro ⟨e, he⟩
            exact absurd he (by simp)
          · intro lb2' h2 hor
            injection h2 with h22e
            subst h22e
            rcases hor with h0 | ⟨e, he⟩
            · exact absurd h0 hid
            · exact absurd he (by simp)
        | ok u0 =>
          cases hcom : env.commit with
          | error e3 =>
            have hrun : registerLogbookHandler env =
                ((statusInternalServerError, jsonInternalError),
                  [TxEv.began, TxEv.insertedLogbook, TxEv.generatedKey,
                    TxEv.insertedAPIKey]) := by
              simp only [registerLogbookHandler, hctx, hlb, hval, huser, hdb, htx, hins,
                Bool.true_eq_false, if_false]
              rw [if_neg hid]
              simp only [hgen, hkins, hcom]
            rw [hrun]
            refine ⟨⟨?_, ?_⟩, ?_, ?_, ?_, ?_⟩
            · rintro ⟨key, hk⟩
              exact absurd hk (by simp [statusCreated, statusInternalServerError])
            · intro hc
              exact absurd hc (by simp)
            · intro key hk
              exact absurd hk (by simp [statusCreated, statusInternalServerError])
            · rintro ⟨e, he⟩
              exact absurd he (by simp)
            · intro lb2' h2 hor
              injection h2 with h22e
              subst h22e
              rcases hor with h0 | ⟨e, he⟩
              · exact absurd h0 hid
              · exact absurd he (by simp)
            · intro lb2' fullKey p h h2 hne hg hke
              injection h2 with h22e
              subst h22e
              injection hg with hg2e
              injection hg2e with ha hb
              injection hb with hb1 hb2
              subst ha
              subst hb1
              subst hb2
              obtain ⟨e, he⟩ := hke
              rw [hkins] at he
              exact absurd he (by simp)
          | ok u1 =>
            have hrun : registerLogbookHandler env =
                ((statusCreated, fullKey0),
                  [TxEv.began, TxEv.insertedLogbook, TxEv.generatedKey,
                    TxEv.insertedAPIKey, TxEv.committed]) := by
              simp only [registerLogbookHandler, hctx, hlb, hval, huser, hdb, htx, hins,
                Bool.true_eq_false, if_false]
              rw [if_neg hid]
              simp only [hgen, hkins, hcom]
            rw [hrun]
            refine ⟨⟨fun _ => by simp, fun _ => ⟨fullKey0, rfl⟩⟩, ?_, ?_, ?_, ?_⟩
            · intro key hk
              have hke : fullKey0 = key := by
                have := (Prod.mk.injEq statusCreated fullKey0 statusCreated key).mp hk
                exact this.2
              subst hke
              exact ⟨pfx0, hash0, rfl⟩
            · rintro ⟨e, he⟩
              exact absurd he (by simp)
            · intro lb2' h2 hor
              injection h2 with h22e
              subst h22e
              rcases hor with h0 | ⟨e, he⟩
              · exact absurd h0 hid
              · exact absurd he (by simp)
            · intro lb2' fullKey p h h2 hne hg hke
              injection h2 with h22e
              subst h22e
              injection hg with hg2e
              injection hg2e with ha hb
              injection hb with hb1 hb2
              subst ha
              subst hb1
              subst hb2
              obtain ⟨e, he⟩ := hke
              rw [hkins] at he
              exact absurd he (by simp)

/-- A request context carrying a logbook payload and a resolved user,
as the provisioning handler receives it. -/
def demoReqCtxProvision : RequestCtx :=
  ⟨⟨"W1AW", "hunter2", RegisterLogbookAction, "", some demoLogbook⟩,
    some demoUser, none, true⟩

/-- A concrete provisioning environment in which every transaction
step succeeds. -/
def demoProvisionEnv : ProvisionEnv :=
  { reqCtx := some demoReqCtxProvision,
    validateOk := true,
    dbPresent := true,
    beginTx := .ok (),
    insertLogbook := fun lb => .ok { lb with id := 42 },
    generateApiKey := .ok (demoFullKey, "ABCDEFGHIJ", demoDigest demoSecret),
    insertAPIKey := fun _ _ _ _ => .ok (),
    commit := .ok (),
    rollback := .ok () }

/-- Witness for C1 at the all-success provisioning environment. -/
theorem registerLogbook_atomicity_witness :
    ((∃ key, (registerLogbookHandler demoProvisionEnv).1 = (statusCreated, key)) ↔
      TxEv.committed ∈ (registerLogbookHandler demoProvisionEnv).2) ∧
    (∀ key, (registerLogbookHandler demoProvisionEnv).1 = (statusCreated, key) →
      ∃ p h, demoProvisionEnv.generateApiKey = .ok (key, p, h)) ∧
    ((∃ e, demoProvisionEnv.insertLogbook
        { demoLogbook with userId := demoUser.id } = .error e) →
      TxEv.rolledBack ∈ (registerLogbookHandler demoProvisionEnv).2 ∧
      (registerLogbookHandler demoProvisionEnv).1 =
        (statusInternalServerError, jsonInternalError)) ∧
    (∀ lb2, demoProvisionEnv.insertLogbook
        { demoLogbook with userId := demoUser.id } = .ok lb2 →
      (lb2.id = 0 ∨ (∃ e, demoProvisionEnv.generateApiKey = .error e)) →
      TxEv.rolledBack ∈ (registerLogbookHandler demoProvisionEnv).2 ∧
      (registerLogbookHandler demoProvisionEnv).1 =
        (statusInternalServerError, jsonInternalError)) ∧
    (∀ lb2 fullKey p h, demoProvisionEnv.insertLogbook
        { demoLogbook with userId := demoUser.id } = .ok lb2 →
      lb2.id ≠ 0 → demoProvisionEnv.generateApiKey = .ok (fullKey, p, h) →
      (∃ e, demoProvisionEnv.insertAPIKey lb2.callsign p h lb2.id = .error e) →
      TxEv.rolledBack ∈ (registerLogbookHandler demoProvisionEnv).2 ∧
      (registerLogbookHandler demoProvisionEnv).1 =
        (statusInternalServerError, jsonInternalError)) :=
  registerLogbook_atomicity demoProvisionEnv demoReqCtxProvision demoLogbook demoUser
    rfl rfl rfl rfl rfl rfl

end StationManager
